import Mathlib

/-!
Shallow embedding of the durable ingest job queue of
`src/partners/ingest_queue.py` (table `partner_ingest_jobs`, diagnostics
table `partner_ingest_diagnostics`, metrics counters of
`src/partners/metrics.py`), together with a model of the `json.dumps` /
`json.loads` pair the queue uses to serialize payloads, diagnostics and
error lists.

Conventions of the embedding:
* SQL rows are Lean structures; the job table is a list of rows ordered as
  stored; `CURRENT_TIMESTAMP` is an explicit `now : Int` parameter.
* Python text is modelled as `List Char`.
* Python floats (`time.sleep` amounts, `random.random()`,
  `random.uniform`) are modelled as rationals `ℚ`.
* The external collaborators `validate_products` / `upsert_products`
  (spec section 2 treats them as interfaces only) are parameters of the
  worker; an exception they raise is an explicit outcome constructor.
* `sqlite3` contention during `INSERT` is modelled by an environment
  function giving each attempt's outcome.
-/

set_option maxRecDepth 4000

namespace IngestQueue

/-! ## JSON values

Model of the JSON fragment produced and consumed by the queue via
`json.dumps` / `json.loads`: null, booleans, integers, strings, arrays and
objects (the queue never serializes floats).  `json.dumps` is used with its
default separators, producing item separator ", " and key separator ": ",
and preserving object insertion order. -/

inductive Json where
  | null : Json
  | bool (b : Bool) : Json
  | num (n : Int) : Json
  | str (s : List Char) : Json
  | arr (elems : List Json) : Json
  | obj (members : List (List Char × Json)) : Json
deriving Repr

/-- `Char.ofNat 123`, an opening curly brace. -/
def lbrace : Char := Char.ofNat 123

/-- `Char.ofNat 125`, a closing curly brace. -/
def rbrace : Char := Char.ofNat 125

/-- Lower-case hexadecimal digit for `n < 16` (as in Python's `\u00xx`
escapes). -/
def hexDigitChar (n : Nat) : Char :=
  if n < 10 then Char.ofNat (48 + n) else Char.ofNat (87 + n)

/-- JSON string escaping as performed by `json.dumps`: `"` and `\` get a
backslash, the common control characters use their short escapes, the
remaining control characters use `\u00xx`. -/
def escapeChar (c : Char) : List Char :=
  if c = '"' then ['\\', '"']
  else if c = '\\' then ['\\', '\\']
  else if c = Char.ofNat 8 then ['\\', 'b']
  else if c = Char.ofNat 9 then ['\\', 't']
  else if c = Char.ofNat 10 then ['\\', 'n']
  else if c = Char.ofNat 12 then ['\\', 'f']
  else if c = Char.ofNat 13 then ['\\', 'r']
  else if c.toNat < 32 then
    ['\\', 'u', '0', '0', hexDigitChar (c.toNat / 16), hexDigitChar (c.toNat % 16)]
  else [c]

def escapeString (s : List Char) : List Char :=
  s.foldr (fun c acc => escapeChar c ++ acc) []

/-- Decimal digit characters of a natural number, most significant first. -/
def natDigits (n : Nat) : List Char :=
  if h : n < 10 then [Char.ofNat (48 + n)]
  else natDigits (n / 10) ++ [Char.ofNat (48 + n % 10)]
decreasing_by
  exact Nat.div_lt_self (by omega) (by omega)

/-- Decimal rendering of an integer, as Python prints an `int`. -/
def intChars (i : Int) : List Char :=
  if i < 0 then '-' :: natDigits i.natAbs else natDigits i.natAbs

mutual

/-- `json.dumps` (default separators) of a JSON value, as characters. -/
def jsonChars : Json → List Char
  | .null => 'n' :: 'u' :: 'l' :: ['l']
  | .bool true => 't' :: 'r' :: 'u' :: ['e']
  | .bool false => 'f' :: 'a' :: 'l' :: 's' :: ['e']
  | .num i => intChars i
  | .str s => '"' :: escapeString s ++ ['"']
  | .arr [] => ['[', ']']
  | .arr (x :: xs) => '[' :: (jsonChars x ++ elemsChars xs ++ [']'])
  | .obj [] => [lbrace, rbrace]
  | .obj (kv :: kvs) => lbrace :: (memberChars kv ++ membersChars kvs ++ [rbrace])

/-- Remaining array elements, each preceded by the item separator ", ". -/
def elemsChars : List Json → List Char
  | [] => []
  | x :: xs => ',' :: ' ' :: (jsonChars x ++ elemsChars xs)

/-- One object member: quoted key, key separator ": ", value. -/
def memberChars : List Char × Json → List Char
  | (k, v) => '"' :: escapeString k ++ ['"', ':', ' '] ++ jsonChars v

/-- Remaining object members, each preceded by the item separator ", ". -/
def membersChars : List (List Char × Json) → List Char
  | [] => []
  | kv :: kvs => ',' :: ' ' :: (memberChars kv ++ membersChars kvs)

end

/-! ## JSON parsing (`json.loads` on the canonical output format) -/

/-- Value of a hexadecimal digit character. -/
def hexVal (c : Char) : Option Nat :=
  if 48 ≤ c.toNat ∧ c.toNat ≤ 57 then some (c.toNat - 48)
  else if 97 ≤ c.toNat ∧ c.toNat ≤ 102 then some (c.toNat - 87)
  else if 65 ≤ c.toNat ∧ c.toNat ≤ 70 then some (c.toNat - 55)
  else none

/-- Single-character JSON escapes. -/
def unescapeChar (c : Char) : Option Char :=
  if c = '"' then some '"'
  else if c = '\\' then some '\\'
  else if c = '/' then some '/'
  else if c = 'b' then some (Char.ofNat 8)
  else if c = 't' then some (Char.ofNat 9)
  else if c = 'n' then some (Char.ofNat 10)
  else if c = 'f' then some (Char.ofNat 12)
  else if c = 'r' then some (Char.ofNat 13)
  else none

/-- Parse the body of a JSON string literal up to its closing quote,
returning the decoded characters and the rest of the input. -/
def parseStringBody : List Char → Option (List Char × List Char)
  | [] => none
  | c :: r =>
    if c = '"' then some ([], r)
    else if c = '\\' then
      match r with
      | [] => none
      | e :: r' =>
        if e = 'u' then
          match r' with
          | a :: b :: c2 :: d :: r'' =>
            match hexVal a, hexVal b, hexVal c2, hexVal d with
            | some ha, some hb, some hc, some hd =>
              (parseStringBody r'').map
                (fun p => (Char.ofNat (((ha * 16 + hb) * 16 + hc) * 16 + hd) :: p.1, p.2))
            | _, _, _, _ => none
          | _ => none
        else
          match unescapeChar e with
          | some u => (parseStringBody r').map (fun p => (u :: p.1, p.2))
          | none => none
    else (parseStringBody r).map (fun p => (c :: p.1, p.2))

/-- Longest digit run at the front of the input. -/
def takeDigits : List Char → List Char × List Char
  | [] => ([], [])
  | c :: r =>
    if c.isDigit then
      let p := takeDigits r
      (c :: p.1, p.2)
    else ([], c :: r)

/-- Numeric value of a digit run. -/
def digitsVal (ds : List Char) : Nat :=
  ds.foldl (fun a c => a * 10 + (c.toNat - 48)) 0

/-- Parse an integer literal. -/
def parseNumber (s : List Char) : Option (Json × List Char) :=
  match s with
  | [] => none
  | c :: r =>
    if c = '-' then
      let p := takeDigits r
      if p.1 = [] then none else some (.num (-(digitsVal p.1 : Int)), p.2)
    else
      let p := takeDigits (c :: r)
      if p.1 = [] then none else some (.num ((digitsVal p.1 : Int)), p.2)

mutual

/-- Fuel-indexed recursive-descent parser for the canonical format emitted
by `jsonChars`. -/
def parseValue : Nat → List Char → Option (Json × List Char)
  | 0, _ => none
  | fuel + 1, s =>
    match s with
    | [] => none
    | c :: r =>
      if c = 'n' then
        match r with
        | 'u' :: 'l' :: 'l' :: r' => some (.null, r')
        | _ => none
      else if c = 't' then
        match r with
        | 'r' :: 'u' :: 'e' :: r' => some (.bool true, r')
        | _ => none
      else if c = 'f' then
        match r with
        | 'a' :: 'l' :: 's' :: 'e' :: r' => some (.bool false, r')
        | _ => none
      else if c = '"' then
        (parseStringBody r).map (fun p => (.str p.1, p.2))
      else if c = '[' then
        match r with
        | [] => none
        | c2 :: r' =>
          if c2 = ']' then some (.arr [], r')
          else (parseElems fuel (c2 :: r')).map (fun p => (.arr p.1, p.2))
      else if c = lbrace then
        match r with
        | c2 :: r' =>
          if c2 = rbrace then some (.obj [], r')
          else (parseMembers fuel r).map (fun p => (.obj p.1, p.2))
        | [] => none
      else parseNumber (c :: r)

/-- Parse one or more array elements separated by ", ", consuming the
closing bracket. -/
def parseElems : Nat → List Char → Option (List Json × List Char)
  | 0, _ => none
  | fuel + 1, s =>
    match parseValue fuel s with
    | none => none
    | some (v, r) =>
      match r with
      | [] => none
      | c2 :: r' =>
        if c2 = ']' then some ([v], r')
        else if c2 = ',' then
          match r' with
          | ' ' :: r'' => (parseElems fuel r'').map (fun p => (v :: p.1, p.2))
          | _ => none
        else none

/-- Parse one object member: quoted key, ": ", value. -/
def parseMember : Nat → List Char → Option ((List Char × Json) × List Char)
  | 0, _ => none
  | fuel + 1, s =>
    match s with
    | [] => none
    | c :: r =>
      if c = '"' then
        match parseStringBody r with
        | none => none
        | some (k, r') =>
          match r' with
          | ':' :: ' ' :: r'' => (parseValue fuel r'').map (fun p => ((k, p.1), p.2))
          | _ => none
      else none

/-- Parse one or more object members separated by ", ", consuming the
closing brace. -/
def parseMembers : Nat → List Char → Option (List (List Char × Json) × List Char)
  | 0, _ => none
  | fuel + 1, s =>
    match parseMember fuel s with
    | none => none
    | some (kv, r) =>
      match r with
      | [] => none
      | c2 :: r' =>
        if c2 = rbrace then some ([kv], r')
        else if c2 = ',' then
          match r' with
          | ' ' :: r'' => (parseMembers fuel r'').map (fun p => (kv :: p.1, p.2))
          | _ => none
        else none

end

/-- `json.loads`: parse a complete JSON document with no trailing input. -/
def jsonLoads (s : List Char) : Option Json :=
  match parseValue (s.length + 1) s with
  | some (v, []) => some v
  | _ => none

mutual

/-- Structural size of a JSON value, a sufficient fuel bound for
`parseValue`. -/
def sizeJ : Json → Nat
  | .null => 1
  | .bool _ => 1
  | .num _ => 1
  | .str _ => 1
  | .arr xs => 1 + sizeElems xs
  | .obj kvs => 1 + sizeMembers kvs

def sizeElems : List Json → Nat
  | [] => 0
  | x :: xs => 1 + sizeJ x + sizeElems xs

def sizeMember : List Char × Json → Nat
  | (_, v) => 1 + sizeJ v

def sizeMembers : List (List Char × Json) → Nat
  | [] => 0
  | kv :: kvs => 1 + sizeMember kv + sizeMembers kvs

end

/-- The input does not begin with a decimal digit (so a preceding number
literal cannot absorb it). -/
def noDigitHead : List Char → Prop
  | [] => True
  | c :: _ => c.isDigit = false

/-! ## Data model

Rows of `partner_ingest_jobs` and `partner_ingest_diagnostics`, the
`product` catalog rows touched by the upsert collaborator, and the
in-memory metrics counters of `src/partners/metrics.py`.  The job-table
DDL (`db/init.sql`) is not part of the sources; the column set and its
defaults (`status='pending'`, `attempts=0` at insert, `max_attempts` and
`next_run` nullable) follow spec section 3, which matches every read and
write the queue code performs. -/

structure Job where
  id : Nat
  partner_id : Int
  payload : List Char
  status : String
  attempts : Nat
  max_attempts : Option Nat
  next_run : Option Int
  error : Option (List Char)
  diagnostics : Option (List Char)
  processed_at : Option Int
  feed_hash : Option (List Char)
deriving Repr, DecidableEq

structure DiagRow where
  id : Nat
  job_id : Nat
  diagnostics : List Char
deriving Repr, DecidableEq

/-- A `product` row as far as the upsert collaborator writes it. -/
structure CatalogRow where
  name : List Char
  price_cents : Int
  stock : Int
  sku : Option (List Char)
deriving Repr, DecidableEq

def Catalog := List CatalogRow

structure Store where
  jobs : List Job
  diagRows : List DiagRow
  nextJobId : Nat
  nextDiagId : Nat
  catalog : List CatalogRow
deriving Repr, DecidableEq

/-- The four process-wide counters of `metrics.py`. -/
structure Metrics where
  enqueued : Nat
  processed : Nat
  failed : Nat
  retried : Nat
deriving Repr, DecidableEq

/-- `metrics.incr(name)` with the default increment of 1. -/
def incr (m : Metrics) (name : String) : Metrics :=
  if name = "enqueued" then { m with enqueued := m.enqueued + 1 }
  else if name = "processed" then { m with processed := m.processed + 1 }
  else if name = "failed" then { m with failed := m.failed + 1 }
  else if name = "retried" then { m with retried := m.retried + 1 }
  else m

/-- Python's `x or d` on a nullable integer column: `None` and `0` are both
falsy and give the default. -/
def pyOr (o : Option Nat) (d : Nat) : Nat :=
  match o with
  | none => d
  | some x => if x = 0 then d else x

/-! ## Claim protocol (`_claim_job`) -/

/-- The `WHERE` clause of the claim `SELECT`:
`status = 'pending' AND (next_run IS NULL OR next_run <= CURRENT_TIMESTAMP)`. -/
def eligible (now : Int) (j : Job) : Bool :=
  decide (j.status = "pending") &&
    (match j.next_run with
     | none => true
     | some t => decide (t ≤ now))

/-- The tuple `_claim_job` returns: job id, partner id, `json.loads` of the
payload (`none` models the `json.loads` exception on an undecodable
payload), pre-increment `attempts or 0`, and `max_attempts or 5`. -/
structure Claimed where
  job_id : Nat
  partner_id : Int
  products : Option Json
  attempts : Nat
  max_attempts : Nat
deriving Repr

/-- The row update of a successful claim:
`SET status='in_progress', attempts = attempts + 1 WHERE id = jid`. -/
def applyToJob (jid : Nat) (f : Job → Job) (jobs : List Job) : List Job :=
  jobs.map (fun j => if j.id = jid then f j else j)

def claimedRow (j : Job) : Job :=
  { j with status := "in_progress", attempts := j.attempts + 1 }

/-- `_claim_job`: inside one `BEGIN IMMEDIATE` transaction, select the
lowest-id eligible pending row (`ORDER BY id LIMIT 1`); if none exists,
roll back and return `None`; otherwise mark it `in_progress`, increment
`attempts`, commit, and return the claimed tuple. -/
def claim_job (now : Int) (st : Store) : Option Claimed × Store :=
  match (st.jobs.filter (eligible now)).argmin Job.id with
  | none => (none, st)
  | some j =>
    (some { job_id := j.id, partner_id := j.partner_id,
            products := jsonLoads j.payload,
            attempts := j.attempts, max_attempts := pyOr j.max_attempts 5 },
     { st with jobs := applyToJob j.id claimedRow st.jobs })

/-- `N` back-to-back `_claim_job` transactions.  `BEGIN IMMEDIATE` makes
each claim a single exclusive read-select-then-update transaction, so
every concurrent execution of `N` claim calls is equivalent to one such
serial sequence. -/
def claimSeq (now : Int) : Nat → Store → List (Option Claimed) × Store
  | 0, st => ([], st)
  | n + 1, st =>
    let p := claim_job now st
    let q := claimSeq now n p.2
    (p.1 :: q.1, q.2)

/-! ## Producer API (`enqueue_feed_db`) -/

/-- Outcome of one `INSERT` attempt against sqlite: success, the transient
`sqlite3.OperationalError` whose message contains "database is locked", or
any other `OperationalError`. -/
inductive InsertOutcome where
  | ok : InsertOutcome
  | locked : InsertOutcome
  | otherErr (msg : List Char) : InsertOutcome
deriving Repr, DecidableEq

/-- The row inserted by
`INSERT INTO partner_ingest_jobs (partner_id, payload, status, feed_hash)
VALUES (?, json.dumps(products), 'pending', ?)`; the remaining columns take
their schema defaults. -/
def newJob (id : Nat) (partner_id : Int) (products : List Json)
    (feed_hash : Option (List Char)) : Job :=
  { id := id, partner_id := partner_id, payload := jsonChars (.arr products),
    status := "pending", attempts := 0, max_attempts := none, next_run := none,
    error := none, diagnostics := none, processed_at := none,
    feed_hash := feed_hash }

def backoff_base : ℚ := 1 / 20

/-- `sleep_time` of attempt `attempt` (1-based) in `enqueue_feed_db`:
`backoff_base * 2 ** (attempt - 1)` scaled by
`1 + (random.random() - 0.5) * 0.3` where `r` is the drawn random. -/
def enqSleep (attempt : Nat) (r : ℚ) : ℚ :=
  backoff_base * 2 ^ (attempt - 1) * (1 + (r - 1 / 2) * (3 / 10))

structure EnqueueResult where
  result : Except InsertOutcome Nat
  store : Store
  metrics : Metrics
  sleeps : List ℚ
deriving Repr

/-- The retry loop of `enqueue_feed_db`, with `remaining` iterations left
of the `for attempt in range(1, max_attempts + 1)` loop.  `outcomes k` is
what the `INSERT` of (1-based) attempt `k` does, `rand k` the
`random.random()` draw of attempt `k`. -/
def enqueueLoop (outcomes : Nat → InsertOutcome) (rand : Nat → ℚ)
    (partner_id : Int) (products : List Json) (feed_hash : Option (List Char)) :
    Nat → Nat → Store → Metrics → List ℚ → Option InsertOutcome → EnqueueResult
  | 0, _, st, m, sleeps, lastExc =>
    { result := .error (lastExc.getD (InsertOutcome.otherErr ("enqueue_feed_db failed for unknown reasons".toList)))
      store := st
      metrics := m
      sleeps := sleeps }
  | remaining + 1, attempt, st, m, sleeps, _lastExc =>
    match outcomes attempt with
    | .ok =>
      let jid := st.nextJobId
      let st' := { st with
                   jobs := st.jobs ++ [newJob jid partner_id products feed_hash]
                   nextJobId := jid + 1 }
      { result := .ok jid, store := st', metrics := incr m "enqueued", sleeps := sleeps }
    | .locked =>
      enqueueLoop outcomes rand partner_id products feed_hash remaining (attempt + 1)
        st m (sleeps ++ [enqSleep attempt (rand attempt)]) (some .locked)
    | .otherErr msg =>
      { result := .error (.otherErr msg), store := st, metrics := m, sleeps := sleeps }

/-- `enqueue_feed_db(db_path, partner_id, products, feed_hash)`: insert a
pending job, retrying a "database is locked" error up to 5 attempts with
doubling jittered backoff; re-raise any other error immediately; increment
the `enqueued` counter on success and return the new job id. -/
def enqueue_feed_db (outcomes : Nat → InsertOutcome) (rand : Nat → ℚ)
    (partner_id : Int) (products : List Json) (feed_hash : Option (List Char))
    (st : Store) (m : Metrics) : EnqueueResult :=
  enqueueLoop outcomes rand partner_id products feed_hash 5 1 st m [] none

/-! ## Worker processing

The per-claimed-job body of `worker_loop`, with the two collaborators
(`validate_products`, `upsert_products` of `partner_ingest_service.py`,
external interfaces per spec sections 1 and 6) passed as parameters.  A
`raised` outcome models the collaborator throwing. -/

/-- Result of `validate_products(products)`: `(valid_items, errors)`, or an
unexpected exception. -/
inductive ValidateOutcome where
  | ok (valid : List Json) (errors : List (List Char)) : ValidateOutcome
  | raised (msg : List Char) : ValidateOutcome

/-- Result of `upsert_products(conn, valid_items, partner_id)`:
`(upserted, errors)` together with the catalog table it leaves behind, or
an unexpected exception (whose partial catalog writes are committed by the
worker's exception handler commit). -/
inductive UpsertOutcome where
  | ok (upserted : Nat) (errors : List (List Char)) (catalog : List CatalogRow) : UpsertOutcome
  | raised (msg : List Char) (catalog : List CatalogRow) : UpsertOutcome

/-- Python truthiness test `if not products` on a decoded JSON value. -/
def jsonFalsy : Json → Bool
  | .null => true
  | .bool b => !b
  | .num n => n == 0
  | .str s => s.isEmpty
  | .arr xs => xs.isEmpty
  | .obj kvs => kvs.isEmpty

/-- The diagnostics summary dict
`{"accepted": accepted, "rejected": len(errors), "errors": errors}`. -/
def diagJson (accepted : Nat) (errors : List (List Char)) : Json :=
  .obj [("accepted".toList, .num accepted), ("rejected".toList, .num errors.length), ("errors".toList, .arr (errors.map .str))]

/-- The offload pointer dict
`{"errors_link": f"/partner/diagnostics/(off_id)"}`. -/
def errorsLinkJson (offId : Nat) : Json :=
  .obj [("errors_link".toList, .str ("/partner/diagnostics/".toList ++ natDigits offId))]

/-- `int(max(1, max(1, 2 ** attempts) * uniform(0.5, 1.5)))`: the retry
delay in whole seconds computed by the worker's exception handler, where
`u` is the `random.uniform(0.5, 1.5)` draw.  The truncating `int()` equals
the floor because its argument is at least 1. -/
def retryDelay (a : Nat) (u : ℚ) : Int :=
  ⌊max 1 (max 1 ((2 : ℚ) ^ a) * u)⌋

/-- Modelled from the spec: the delay formula stated by the spec for retry
scheduling, `max(1, 2 ** attempts) * uniform(0.5, 1.5)` seconds, as an
exact rational (no integer truncation). -/
def specRetryDelay (a : Nat) (u : ℚ) : ℚ :=
  max 1 ((2 : ℚ) ^ a) * u

/-- `cur_attempts` as the exception handler re-reads it:
`row[0] if row else attempts`. -/
def rereadAttempts (st : Store) (c : Claimed) : Nat :=
  match st.jobs.find? (fun j => j.id = c.job_id) with
  | some j => j.attempts
  | none => c.attempts

/-- `cur_max or 5` as the exception handler re-reads it:
`row[1] if row else max_attempts`, then Python `or 5`. -/
def rereadMax (st : Store) (c : Claimed) : Nat :=
  pyOr
    (match st.jobs.find? (fun j => j.id = c.job_id) with
     | some j => j.max_attempts
     | none => some c.max_attempts) 5

/-- The `except` handler of `worker_loop`'s inner `try`: re-read the row's
`attempts`/`max_attempts` (falling back to the claimed values if the row is
gone); below the ceiling, reschedule as `pending` with
`next_run = now + delay` and the error persisted and count a retry;
otherwise mark `failed` with the error.  Either way count a failure. -/
def workerOnException (c : Claimed) (msg : List Char) (u : ℚ) (now : Int)
    (st : Store) (m : Metrics) : Store × Metrics :=
  let curAttempts := rereadAttempts st c
  if curAttempts < rereadMax st c then
    let delay := retryDelay curAttempts u
    let st' := { st with jobs := applyToJob c.job_id (fun j => { j with status := "pending", next_run := some (now + delay), error := some msg }) st.jobs }
    (st', incr (incr m "retried") "failed")
  else
    let st' := { st with jobs := applyToJob c.job_id (fun j => { j with status := "failed", error := some msg }) st.jobs }
    (st', incr m "failed")

/-- What one pass of `worker_loop`'s body did. -/
inductive WorkerOutcome where
  | idle : WorkerOutcome
  | outerException (jid : Nat) : WorkerOutcome
  | finished (jid : Nat) : WorkerOutcome
deriving Repr, DecidableEq

/-- One iteration of `worker_loop` (minus the sleep/stop-event plumbing):
claim a job and process it.  `idle` models the no-job path (the loop then
sleeps `poll_interval`); `outerException` models the payload of the claimed
job failing to decode inside `_claim_job`'s return expression, which the
outer handler only logs (the job stays `in_progress`). -/
def worker_iteration (validate : Json → ValidateOutcome)
    (upsert : List CatalogRow → Int → List Json → UpsertOutcome)
    (u : ℚ) (now : Int) (st : Store) (m : Metrics) :
    WorkerOutcome × Store × Metrics :=
  match claim_job now st with
  | (none, st₁) => (.idle, st₁, m)
  | (some c, st₁) =>
    match c.products with
    | none => (.outerException c.job_id, st₁, m)
    | some v =>
      if jsonFalsy v then
        let st₂ := { st₁ with jobs := applyToJob c.job_id (fun j => { j with status := "done", processed_at := some now }) st₁.jobs }
        (.finished c.job_id, st₂, incr m "processed")
      else
        match validate v with
        | .raised msg =>
          let p := workerOnException c msg u now st₁ m
          (.finished c.job_id, p.1, p.2)
        | .ok valid verrs =>
          if verrs.isEmpty then
            match upsert st₁.catalog c.partner_id valid with
            | .raised msg cat' =>
              let p := workerOnException c msg u now { st₁ with catalog := cat' } m
              (.finished c.job_id, p.1, p.2)
            | .ok upserted uerrs cat' =>
              let djson := jsonChars (diagJson upserted uerrs)
              if 2000 < djson.length then
                let offId := st₁.nextDiagId
                let st₂ := { st₁ with
                             catalog := cat'
                             diagRows := st₁.diagRows ++ [DiagRow.mk offId c.job_id djson]
                             nextDiagId := offId + 1 }
                let st₃ := { st₂ with jobs := applyToJob c.job_id (fun j => { j with status := "done", processed_at := some now, diagnostics := some (jsonChars (errorsLinkJson offId)) }) st₂.jobs }
                (.finished c.job_id, st₃, incr m "processed")
              else
                let st₂ := { st₁ with
                             catalog := cat'
                             jobs := applyToJob c.job_id (fun j => { j with status := "done", processed_at := some now, diagnostics := some djson }) st₁.jobs }
                (.finished c.job_id, st₂, incr m "processed")
          else
            let djson := jsonChars (diagJson 0 verrs)
            let errJ := jsonChars (.arr (verrs.map .str))
            if 2000 < djson.length then
              let offId := st₁.nextDiagId
              let st₂ := { st₁ with
                           diagRows := st₁.diagRows ++ [DiagRow.mk offId c.job_id djson]
                           nextDiagId := offId + 1 }
              let st₃ := { st₂ with jobs := applyToJob c.job_id (fun j => { j with status := "failed", error := some errJ, diagnostics := some (jsonChars (errorsLinkJson offId)) }) st₂.jobs }
              (.finished c.job_id, st₃, m)
            else
              let st₂ := { st₁ with jobs := applyToJob c.job_id (fun j => { j with status := "failed", error := some errJ, diagnostics := some djson }) st₁.jobs }
              (.finished c.job_id, st₂, m)

/-! ## Synchronous processor (`process_next_job_once`) -/

/-- The dict `process_next_job_once` returns:
`{"job_id": ..., "status": ..., "diagnostics"?: ..., "error"?: ...}`. -/
structure ProcResult where
  job_id : Nat
  status : String
  diagnostics : Option Json
  error : Option (List Char)
deriving Repr

/-- Result of a `process_next_job_once` call: `None`, an escaped
payload-decode exception, or the returned dict. -/
inductive ProcOutcome where
  | noJob : ProcOutcome
  | raisedDecode (jid : Nat) : ProcOutcome
  | res (r : ProcResult) : ProcOutcome
deriving Repr

/-- `process_next_job_once(db_path)`: claim and process a single pending
job synchronously; on an unexpected exception mark the job `failed` with
the error directly (no re-read, no backoff, no metrics); return a result
dict, or `None` when no job was eligible.  Translated independently of
`worker_iteration` because the source duplicates the processing code. -/
def process_next_job_once (validate : Json → ValidateOutcome)
    (upsert : List CatalogRow → Int → List Json → UpsertOutcome)
    (now : Int) (st : Store) (m : Metrics) : ProcOutcome × Store × Metrics :=
  match claim_job now st with
  | (none, st₁) => (.noJob, st₁, m)
  | (some c, st₁) =>
    match c.products with
    | none => (.raisedDecode c.job_id, st₁, m)
    | some v =>
      if jsonFalsy v then
        let st₂ := { st₁ with jobs := applyToJob c.job_id (fun j => { j with status := "done", processed_at := some now }) st₁.jobs }
        (.res { job_id := c.job_id, status := "done", diagnostics := none, error := none }, st₂, m)
      else
        match validate v with
        | .raised msg =>
          let st₂ := { st₁ with jobs := applyToJob c.job_id (fun j => { j with status := "failed", error := some msg }) st₁.jobs }
          (.res { job_id := c.job_id, status := "failed", diagnostics := none, error := some msg }, st₂, m)
        | .ok valid verrs =>
          if verrs.isEmpty then
            match upsert st₁.catalog c.partner_id valid with
            | .raised msg cat' =>
              let st₂ := { st₁ with
                           catalog := cat'
                           jobs := applyToJob c.job_id (fun j => { j with status := "failed", error := some msg }) st₁.jobs }
              (.res { job_id := c.job_id, status := "failed", diagnostics := none, error := some msg }, st₂, m)
            | .ok upserted uerrs cat' =>
              let djson := jsonChars (diagJson upserted uerrs)
              if 2000 < djson.length then
                let offId := st₁.nextDiagId
                let st₂ := { st₁ with
                             catalog := cat'
                             diagRows := st₁.diagRows ++ [DiagRow.mk offId c.job_id djson]
                             nextDiagId := offId + 1 }
                let st₃ := { st₂ with jobs := applyToJob c.job_id (fun j => { j with status := "done", processed_at := some now, diagnostics := some (jsonChars (errorsLinkJson offId)) }) st₂.jobs }
                (.res { job_id := c.job_id, status := "done", diagnostics := some (errorsLinkJson offId), error := none }, st₃, m)
              else
                let st₂ := { st₁ with
                             catalog := cat'
                             jobs := applyToJob c.job_id (fun j => { j with status := "done", processed_at := some now, diagnostics := some djson }) st₁.jobs }
                (.res { job_id := c.job_id, status := "done", diagnostics := some (diagJson upserted uerrs), error := none }, st₂, m)
          else
            let djson := jsonChars (diagJson 0 verrs)
            let errJ := jsonChars (.arr (verrs.map .str))
            if 2000 < djson.length then
              let offId := st₁.nextDiagId
              let st₂ := { st₁ with
                           diagRows := st₁.diagRows ++ [DiagRow.mk offId c.job_id djson]
                           nextDiagId := offId + 1 }
              let st₃ := { st₂ with jobs := applyToJob c.job_id (fun j => { j with status := "failed", error := some errJ, diagnostics := some (jsonChars (errorsLinkJson offId)) }) st₂.jobs }
              (.res { job_id := c.job_id, status := "failed", diagnostics := some (errorsLinkJson offId), error := none }, st₃, m)
            else
              let st₂ := { st₁ with jobs := applyToJob c.job_id (fun j => { j with status := "failed", error := some errJ, diagnostics := some djson }) st₁.jobs }
              (.res { job_id := c.job_id, status := "failed", diagnostics := some (diagJson 0 verrs), error := none }, st₂, m)

/-- Diagnostics-record lookup by id (`SELECT diagnostics FROM
partner_ingest_diagnostics WHERE id = ?`). -/
def lookupDiag (st : Store) (i : Nat) : Option (List Char) :=
  (st.diagRows.find? (fun d => d.id = i)).map DiagRow.diagnostics

/-! ## Job state machine (spec section 4.3) -/

/-- The four status values a job row may hold. -/
def statusOk (s : String) : Prop :=
  s = "pending" ∨ s = "in_progress" ∨ s = "done" ∨ s = "failed"

/-- One (reflexive) edge of the job state machine: unchanged, claim
(`pending → in_progress`), finish (`in_progress → done/failed`), or the
retry edge back to `pending`, taken only when the row's `attempts` is
below its `max_attempts` ceiling (`or 5` default); `attempts` never
decreases along an edge. -/
def jobEdge (j j' : Job) : Prop :=
  j.attempts ≤ j'.attempts ∧
  (j'.status = j.status ∨
   (j.status = "pending" ∧ j'.status = "in_progress") ∨
   (j.status = "in_progress" ∧ (j'.status = "done" ∨ j'.status = "failed")) ∨
   (j.status = "in_progress" ∧ j'.status = "pending" ∧ j.attempts < pyOr j.max_attempts 5))

/-- Two chained state-machine edges (claim followed by finalization). -/
def jobEdge2 (j j' : Job) : Prop :=
  ∃ mid, jobEdge j mid ∧ jobEdge mid j'

/-! ## Concrete fixtures (used to instantiate the theorems) -/

def emptyMetrics : Metrics := { enqueued := 0, processed := 0, failed := 0, retried := 0 }

/-- A freshly enqueued one-item job (payload `[null]`). -/
def sampleJob : Job :=
  { id := 1, partner_id := 7, payload := jsonChars (.arr [.null]), status := "pending"
    attempts := 0, max_attempts := none, next_run := none, error := none
    diagnostics := none, processed_at := none, feed_hash := none }

def sampleStore : Store :=
  { jobs := [sampleJob], diagRows := [], nextJobId := 2, nextDiagId := 1, catalog := [] }

def emptyStore : Store :=
  { jobs := [], diagRows := [], nextJobId := 1, nextDiagId := 1, catalog := [] }

/-- A validator stub that rejects the single item with one message. -/
def rejectingValidate : Json → ValidateOutcome :=
  fun _ => .ok [] ["Item 0 error: price_cents must be >= 0".toList]

/-- A validator stub that accepts everything unchanged. -/
def acceptingValidate : Json → ValidateOutcome :=
  fun v => match v with
    | .arr xs => .ok xs []
    | _ => .ok [] []

/-- A validator stub that raises. -/
def raisingValidate : Json → ValidateOutcome :=
  fun _ => .raised "boom".toList

/-- An upsert stub that appends one fixed row and reports one upsert. -/
def appendingUpsert : List CatalogRow → Int → List Json → UpsertOutcome :=
  fun cat _ items =>
    .ok items.length [] (cat ++ [{ name := "Widget".toList, price_cents := 500, stock := 3, sku := none }])

/-- A pending job whose payload is the empty batch `[]`. -/
def emptyPayloadJob : Job :=
  { id := 1, partner_id := 7, payload := jsonChars (.arr []), status := "pending"
    attempts := 0, max_attempts := none, next_run := none, error := none
    diagnostics := none, processed_at := none, feed_hash := none }

def emptyPayloadStore : Store :=
  { jobs := [emptyPayloadJob], diagRows := [], nextJobId := 2, nextDiagId := 1, catalog := [] }

/-- An insert environment: locked once, then fine. -/
def sampleOutcomes : Nat → InsertOutcome := fun k => if k = 1 then .locked else .ok

/-- A fixed random stream. -/
def sampleRand : Nat → ℚ := fun _ => 1 / 2

/-! # Theorems

## Digits and number literals -/

theorem char_ofNat_toNat_small : ∀ n < 128, (Char.ofNat n).toNat = n := by decide

theorem digitChar_isDigit : ∀ k < 10, (Char.ofNat (48 + k)).isDigit = true := by decide

theorem natDigits_digits (n : Nat) : ∀ c ∈ natDigits n, c.isDigit = true := by
  induction n using Nat.strong_induction_on with
  | _ n ih =>
    unfold natDigits
    split
    · rename_i h
      intro c hc
      simp only [List.mem_singleton] at hc
      subst hc
      exact digitChar_isDigit n h
    · rename_i h
      intro c hc
      rcases List.mem_append.mp hc with h1 | h2
      · exact ih (n / 10) (Nat.div_lt_self (by omega) (by omega)) c h1
      · simp only [List.mem_singleton] at h2
        subst h2
        exact digitChar_isDigit (n % 10) (Nat.mod_lt _ (by omega))

theorem natDigits_ne_nil (n : Nat) : natDigits n ≠ [] := by
  unfold natDigits
  split
  · simp
  · simp

theorem digitsVal_append_singleton (l : List Char) (c : Char) :
    digitsVal (l ++ [c]) = digitsVal l * 10 + (c.toNat - 48) := by
  simp [digitsVal, List.foldl_append]

theorem digitsVal_natDigits (n : Nat) : digitsVal (natDigits n) = n := by
  induction n using Nat.strong_induction_on with
  | _ n ih =>
    unfold natDigits
    split
    · rename_i h
      have ht := char_ofNat_toNat_small (48 + n) (by omega)
      simp [digitsVal, ht]
    · rename_i h
      rw [digitsVal_append_singleton, ih (n / 10) (Nat.div_lt_self (by omega) (by omega))]
      have ht := char_ofNat_toNat_small (48 + n % 10) (by omega)
      rw [ht]
      omega

theorem takeDigits_append (ds rest : List Char) (hd : ∀ c ∈ ds, c.isDigit = true)
    (hr : noDigitHead rest) : takeDigits (ds ++ rest) = (ds, rest) := by
  induction ds with
  | nil =>
    cases rest with
    | nil => rfl
    | cons c r =>
      simp only [noDigitHead] at hr
      simp [takeDigits, hr]
  | cons c t ih =>
    have hc := hd c (by simp)
    simp [takeDigits, hc, ih (fun x hx => hd x (by simp [hx]))]

theorem natDigits_cons (n : Nat) : ∃ d t, natDigits n = d :: t ∧ d.isDigit = true := by
  cases h : natDigits n with
  | nil => exact absurd h (natDigits_ne_nil n)
  | cons d t =>
    refine ⟨d, t, rfl, ?_⟩
    exact natDigits_digits n d (by rw [h]; simp)

theorem parseNumber_natPart (n : Nat) (rest : List Char) (hr : noDigitHead rest) :
    parseNumber (natDigits n ++ rest) = some (.num (n : Int), rest) := by
  obtain ⟨d, t, hdt, hdig⟩ := natDigits_cons n
  have hmem : ∀ c ∈ natDigits n, c.isDigit = true := natDigits_digits n
  have hne : d ≠ '-' := by
    intro h
    rw [h] at hdig
    exact absurd hdig (by decide)
  have htd : takeDigits (natDigits n ++ rest) = (natDigits n, rest) :=
    takeDigits_append _ _ hmem hr
  rw [hdt] at htd ⊢
  simp only [List.cons_append, parseNumber, if_neg hne]
  rw [show d :: (t ++ rest) = (d :: t) ++ rest from rfl, htd]
  simp only [reduceCtorEq, if_false]
  rw [← hdt, digitsVal_natDigits]

theorem parseNumber_intChars (i : Int) (rest : List Char) (hr : noDigitHead rest) :
    parseNumber (intChars i ++ rest) = some (.num i, rest) := by
  unfold intChars
  split
  · rename_i hneg
    obtain ⟨d, t, hdt, hdig⟩ := natDigits_cons i.natAbs
    have htd : takeDigits (natDigits i.natAbs ++ rest) = (natDigits i.natAbs, rest) :=
      takeDigits_append _ _ (natDigits_digits _) hr
    simp only [List.cons_append, parseNumber, if_pos rfl]
    rw [htd]
    have hne : natDigits i.natAbs ≠ [] := natDigits_ne_nil _
    simp only [if_neg hne, digitsVal_natDigits]
    have : -((i.natAbs : Int)) = i := by omega
    rw [this]
    simp
  · rename_i hpos
    have : ((i.natAbs : Int)) = i := by omega
    rw [← this]
    exact parseNumber_natPart i.natAbs rest hr

theorem intChars_head (i : Int) :
    ∃ d t, intChars i = d :: t ∧ (d = '-' ∨ d.isDigit = true) := by
  unfold intChars
  split
  · exact ⟨'-', natDigits i.natAbs, rfl, Or.inl rfl⟩
  · obtain ⟨d, t, hdt, hdig⟩ := natDigits_cons i.natAbs
    exact ⟨d, t, hdt, Or.inr hdig⟩

/-! ## String literals -/

theorem hexVal_hexDigitChar : ∀ k < 16, hexVal (hexDigitChar k) = some k := by decide

theorem parseStringBody_escape (s rest : List Char) :
    parseStringBody (escapeString s ++ '"' :: rest) = some (s, rest) := by
  induction s with
  | nil =>
    show parseStringBody ('"' :: rest) = some ([], rest)
    rw [parseStringBody.eq_def]
    simp
  | cons c t ih =>
    have hesc : escapeString (c :: t) = escapeChar c ++ escapeString t := rfl
    rw [hesc, List.append_assoc]
    unfold escapeChar
    split_ifs with h1 h2 h3 h4 h5 h6 h7 h8
    · subst h1
      rw [List.cons_append, List.cons_append, List.nil_append, parseStringBody.eq_def]
      simp [unescapeChar, ih]
    · subst h2
      rw [List.cons_append, List.cons_append, List.nil_append, parseStringBody.eq_def]
      simp [unescapeChar, ih]
    · subst h3
      rw [List.cons_append, List.cons_append, List.nil_append, parseStringBody.eq_def]
      simp [unescapeChar, ih]
    · subst h4
      rw [List.cons_append, List.cons_append, List.nil_append, parseStringBody.eq_def]
      simp [unescapeChar, ih]
    · subst h5
      rw [List.cons_append, List.cons_append, List.nil_append, parseStringBody.eq_def]
      simp [unescapeChar, ih]
    · subst h6
      rw [List.cons_append, List.cons_append, List.nil_append, parseStringBody.eq_def]
      simp [unescapeChar, ih]
    · subst h7
      rw [List.cons_append, List.cons_append, List.nil_append, parseStringBody.eq_def]
      simp [unescapeChar, ih]
    · -- the \u00xx escape for the remaining control characters
      have hdiv : c.toNat / 16 < 16 := by omega
      have hmod : c.toNat % 16 < 16 := by omega
      rw [List.cons_append, List.cons_append, List.cons_append, List.cons_append,
        List.cons_append, List.cons_append, List.nil_append, parseStringBody.eq_def]
      norm_num
      rw [hexVal_hexDigitChar _ hdiv, hexVal_hexDigitChar _ hmod]
      have hn : ((0 * 16 + 0) * 16 + c.toNat / 16) * 16 + c.toNat % 16 = c.toNat := by omega
      have h0 : hexVal '0' = some 0 := by decide
      simp only [h0, ih, Option.map_some]
      have hc : c.toNat / 16 * 16 + c.toNat % 16 = c.toNat := by omega
      simp [hn, hc, Char.ofNat_toNat]
    · -- plain character
      rw [List.cons_append, List.nil_append, parseStringBody.eq_def]
      simp [if_neg h1, if_neg h2, ih]

/-! ## Shape facts used by the main parser proof -/

theorem sizeJ_pos (v : Json) : 1 ≤ sizeJ v := by
  cases v <;> simp [sizeJ]

theorem jsonChars_cons (v : Json) :
    ∃ c cs, jsonChars v = c :: cs ∧ c ≠ ']' := by
  cases v with
  | null => exact ⟨'n', _, rfl, by decide⟩
  | bool b =>
    cases b
    · exact ⟨'f', _, rfl, by decide⟩
    · exact ⟨'t', _, rfl, by decide⟩
  | num i =>
    obtain ⟨d, t, hdt, hd⟩ := intChars_head i
    refine ⟨d, t, hdt, ?_⟩
    rcases hd with hd | hd
    · subst hd
      decide
    · intro h
      rw [h] at hd
      exact absurd hd (by decide)
  | str s => exact ⟨'"', _, rfl, by decide⟩
  | arr xs =>
    cases xs with
    | nil => exact ⟨'[', _, rfl, by decide⟩
    | cons x xs => exact ⟨'[', _, rfl, by decide⟩
  | obj kvs =>
    cases kvs with
    | nil => exact ⟨lbrace, _, rfl, by decide⟩
    | cons kv kvs => exact ⟨lbrace, _, rfl, by decide⟩

theorem numHead_ne {d : Char} (h : d = '-' ∨ d.isDigit = true) :
    d ≠ 'n' ∧ d ≠ 't' ∧ d ≠ 'f' ∧ d ≠ '"' ∧ d ≠ '[' ∧ d ≠ lbrace := by
  rcases h with h | h
  · subst h
    exact ⟨by decide, by decide, by decide, by decide, by decide, by decide⟩
  · refine ⟨?_, ?_, ?_, ?_, ?_, ?_⟩ <;>
      · intro he
        rw [he] at h
        exact absurd h (by decide)

theorem noDigitHead_elems (xs : List Json) (rest : List Char) :
    noDigitHead (elemsChars xs ++ ']' :: rest) := by
  cases xs with
  | nil => exact (by decide : (']').isDigit = false)
  | cons x xs => exact (by decide : (',').isDigit = false)

theorem noDigitHead_members (kvs : List (List Char × Json)) (rest : List Char) :
    noDigitHead (membersChars kvs ++ rbrace :: rest) := by
  cases kvs with
  | nil => exact (by decide : rbrace.isDigit = false)
  | cons kv kvs => exact (by decide : (',').isDigit = false)

/-- The size measure is bounded by the serialized length, so
`length + 1` is always enough parser fuel. -/
theorem size_le_len : ∀ n : Nat,
    (∀ v, sizeJ v ≤ n → sizeJ v ≤ (jsonChars v).length) ∧
    (∀ xs, sizeElems xs ≤ n → sizeElems xs ≤ (elemsChars xs).length) ∧
    (∀ kv, sizeMember kv ≤ n → sizeMember kv ≤ (memberChars kv).length) ∧
    (∀ kvs, sizeMembers kvs ≤ n → sizeMembers kvs ≤ (membersChars kvs).length) := by
  intro n
  induction n with
  | zero =>
    refine ⟨?_, ?_, ?_, ?_⟩
    · intro v hv
      exact absurd (le_trans (sizeJ_pos v) hv) (by omega)
    · intro xs hxs
      cases xs with
      | nil => simp [sizeElems]
      | cons x xs =>
        simp only [sizeElems] at hxs
        omega
    · intro kv hkv
      obtain ⟨k, v⟩ := kv
      simp only [sizeMember] at hkv
      omega
    · intro kvs hkvs
      cases kvs with
      | nil => simp [sizeMembers]
      | cons kv kvs =>
        simp only [sizeMembers] at hkvs
        omega
  | succ n ih =>
    obtain ⟨ihv, ihe, ihm, ihms⟩ := ih
    refine ⟨?_, ?_, ?_, ?_⟩
    · intro v hv
      cases v with
      | null => simp [sizeJ, jsonChars]
      | bool b => cases b <;> simp [sizeJ, jsonChars]
      | num i =>
        obtain ⟨d, t, hdt, _⟩ := intChars_head i
        simp [sizeJ, jsonChars, hdt]
      | str s => simp [sizeJ, jsonChars]
      | arr xs =>
        cases xs with
        | nil => simp [sizeJ, sizeElems, jsonChars]
        | cons x xs =>
          simp only [sizeJ, sizeElems] at hv ⊢
          have h1 : sizeJ x ≤ n := by
            have := sizeJ_pos x
            omega
          have h2 : sizeElems xs ≤ n := by omega
          have b1 := ihv x h1
          have b2 := ihe xs h2
          simp only [jsonChars, List.length_cons, List.length_append, List.length_singleton]
          omega
      | obj kvs =>
        cases kvs with
        | nil => simp [sizeJ, sizeMembers, jsonChars]
        | cons kv kvs =>
          obtain ⟨k, w⟩ := kv
          simp only [sizeJ, sizeMembers, sizeMember] at hv ⊢
          have h1 : sizeMember (k, w) ≤ n := by
            simp only [sizeMember]
            have := sizeJ_pos w
            omega
          have h2 : sizeMembers kvs ≤ n := by omega
          have b1 := ihm (k, w) h1
          have b2 := ihms kvs h2
          simp only [sizeMember] at b1
          simp only [jsonChars, List.length_cons, List.length_append, List.length_singleton]
          omega
    · intro xs hxs
      cases xs with
      | nil => simp [sizeElems]
      | cons x xs =>
        simp only [sizeElems] at hxs ⊢
        have h1 : sizeJ x ≤ n := by
          have := sizeJ_pos x
          omega
        have h2 : sizeElems xs ≤ n := by omega
        have b1 := ihv x h1
        have b2 := ihe xs h2
        simp only [elemsChars, List.length_cons, List.length_append]
        omega
    · intro kv hkv
      obtain ⟨k, w⟩ := kv
      simp only [sizeMember] at hkv ⊢
      have h1 : sizeJ w ≤ n := by omega
      have b1 := ihv w h1
      simp only [memberChars, List.length_cons, List.length_append]
      omega
    · intro kvs hkvs
      cases kvs with
      | nil => simp [sizeMembers]
      | cons kv kvs =>
        simp only [sizeMembers] at hkvs ⊢
        have h1 : sizeMember kv ≤ n := by
          obtain ⟨k, w⟩ := kv
          simp only [sizeMember] at hkvs ⊢
          have := sizeJ_pos w
          omega
        have h2 : sizeMembers kvs ≤ n := by
          obtain ⟨k, w⟩ := kv
          simp only [sizeMember] at hkvs
          have := sizeJ_pos w
          omega
        have b1 := ihm kv h1
        have b2 := ihms kvs h2
        simp only [membersChars, List.length_cons, List.length_append]
        omega

theorem sizeJ_le_length (v : Json) : sizeJ v ≤ (jsonChars v).length :=
  (size_le_len (sizeJ v)).1 v le_rfl

/-- With enough fuel, the parser inverts the serializer, leaving any
continuation that does not begin with a digit untouched. -/
theorem parse_sound : ∀ fuel : Nat,
    (∀ v rest, sizeJ v ≤ fuel → noDigitHead rest →
      parseValue fuel (jsonChars v ++ rest) = some (v, rest)) ∧
    (∀ x xs rest, sizeElems (x :: xs) ≤ fuel → noDigitHead rest →
      parseElems fuel (jsonChars x ++ (elemsChars xs ++ ']' :: rest)) = some (x :: xs, rest)) ∧
    (∀ k w rest, sizeMember (k, w) ≤ fuel → noDigitHead rest →
      parseMember fuel (memberChars (k, w) ++ rest) = some ((k, w), rest)) ∧
    (∀ kv kvs rest, sizeMembers (kv :: kvs) ≤ fuel → noDigitHead rest →
      parseMembers fuel (memberChars kv ++ (membersChars kvs ++ rbrace :: rest)) = some (kv :: kvs, rest)) := by
  intro fuel
  induction fuel with
  | zero =>
    refine ⟨?_, ?_, ?_, ?_⟩
    · intro v rest hv _
      exact absurd (le_trans (sizeJ_pos v) hv) (by omega)
    · intro x xs rest hs _
      exfalso
      simp only [sizeElems] at hs
      omega
    · intro k w rest hs _
      exfalso
      simp only [sizeMember] at hs
      omega
    · intro kv kvs rest hs _
      exfalso
      simp only [sizeMembers] at hs
      omega
  | succ f ih =>
    obtain ⟨A, B, C, D⟩ := ih
    refine ⟨?_, ?_, ?_, ?_⟩
    · -- parseValue
      intro v rest hv hr
      cases v with
      | null =>
        show parseValue (f + 1) ('n' :: 'u' :: 'l' :: 'l' :: rest) = some (.null, rest)
        simp [parseValue]
      | bool b =>
        cases b
        · show parseValue (f + 1) ('f' :: 'a' :: 'l' :: 's' :: 'e' :: rest) = some (.bool false, rest)
          simp [parseValue]
        · show parseValue (f + 1) ('t' :: 'r' :: 'u' :: 'e' :: rest) = some (.bool true, rest)
          simp [parseValue]
      | num i =>
        obtain ⟨d, t, hdt, hd⟩ := intChars_head i
        obtain ⟨hn1, hn2, hn3, hn4, hn5, hn6⟩ := numHead_ne hd
        show parseValue (f + 1) (intChars i ++ rest) = some (.num i, rest)
        rw [hdt, List.cons_append, parseValue.eq_def]
        simp only [if_neg hn1, if_neg hn2, if_neg hn3, if_neg hn4, if_neg hn5, if_neg hn6]
        rw [← List.cons_append, ← hdt]
        exact parseNumber_intChars i rest hr
      | str s =>
        show parseValue (f + 1) (('"' :: escapeString s ++ ['"']) ++ rest) = some (.str s, rest)
        have ha : ('"' :: escapeString s ++ ['"']) ++ rest = '"' :: (escapeString s ++ '"' :: rest) := by
          simp
        rw [ha, parseValue.eq_def]
        simp [parseStringBody_escape s rest]
      | arr xs =>
        cases xs with
        | nil =>
          show parseValue (f + 1) ('[' :: ']' :: rest) = some (.arr [], rest)
          simp [parseValue]
        | cons x xs =>
          show parseValue (f + 1) (('[' :: (jsonChars x ++ elemsChars xs ++ [']'])) ++ rest) = some (.arr (x :: xs), rest)
          obtain ⟨c0, cs, hx, hc0⟩ := jsonChars_cons x
          have hb : parseElems f (jsonChars x ++ (elemsChars xs ++ ']' :: rest)) = some (x :: xs, rest) := by
            apply B
            · simp only [sizeJ] at hv
              omega
            · exact hr
          have ha : ('[' :: (jsonChars x ++ elemsChars xs ++ [']'])) ++ rest
              = '[' :: (c0 :: (cs ++ (elemsChars xs ++ ']' :: rest))) := by
            rw [hx]
            simp
          rw [ha, parseValue.eq_def]
          simp only [reduceIte]
          rw [if_neg hc0]
          have hback : c0 :: (cs ++ (elemsChars xs ++ ']' :: rest))
              = jsonChars x ++ (elemsChars xs ++ ']' :: rest) := by
            rw [hx]
            simp
          rw [hback, hb]
          simp
      | obj kvs =>
        cases kvs with
        | nil =>
          show parseValue (f + 1) (lbrace :: rbrace :: rest) = some (.obj [], rest)
          rw [parseValue.eq_def]
          have e1 : lbrace ≠ 'n' := by decide
          have e2 : lbrace ≠ 't' := by decide
          have e3 : lbrace ≠ 'f' := by decide
          have e4 : lbrace ≠ '"' := by decide
          have e5 : lbrace ≠ '[' := by decide
          simp [if_neg e1, if_neg e2, if_neg e3, if_neg e4, if_neg e5]
        | cons kv kvs =>
          obtain ⟨k, w⟩ := kv
          show parseValue (f + 1) ((lbrace :: (memberChars (k, w) ++ membersChars kvs ++ [rbrace])) ++ rest) = some (.obj ((k, w) :: kvs), rest)
          have hd : parseMembers f (memberChars (k, w) ++ (membersChars kvs ++ rbrace :: rest)) = some ((k, w) :: kvs, rest) := by
            apply D
            · simp only [sizeJ] at hv
              omega
            · exact hr
          have hmem : memberChars (k, w) = '"' :: (escapeString k ++ ['"', ':', ' '] ++ jsonChars w) := rfl
          have e1 : lbrace ≠ 'n' := by decide
          have e2 : lbrace ≠ 't' := by decide
          have e3 : lbrace ≠ 'f' := by decide
          have e4 : lbrace ≠ '"' := by decide
          have e5 : lbrace ≠ '[' := by decide
          have e6 : ('"' : Char) ≠ rbrace := by decide
          have ha : (lbrace :: (memberChars (k, w) ++ membersChars kvs ++ [rbrace])) ++ rest
              = lbrace :: ('"' :: ((escapeString k ++ ['"', ':', ' '] ++ jsonChars w) ++ (membersChars kvs ++ rbrace :: rest))) := by
            rw [hmem]
            simp
          rw [ha, parseValue.eq_def]
          simp only [if_neg e1, if_neg e2, if_neg e3, if_neg e4, if_neg e5, reduceIte]
          rw [if_neg e6]
          have hback : '"' :: ((escapeString k ++ ['"', ':', ' '] ++ jsonChars w) ++ (membersChars kvs ++ rbrace :: rest))
              = memberChars (k, w) ++ (membersChars kvs ++ rbrace :: rest) := by
            rw [hmem]
            simp
          rw [hback, hd]
          simp
    · -- parseElems
      intro x xs rest hs hr
      have hx : parseValue f (jsonChars x ++ (elemsChars xs ++ ']' :: rest)) = some (x, elemsChars xs ++ ']' :: rest) := by
        apply A
        · simp only [sizeElems] at hs
          omega
        · exact noDigitHead_elems xs rest
      rw [parseElems.eq_def]
      simp only [hx]
      cases xs with
      | nil =>
        simp [elemsChars]
      | cons y ys =>
        have hy : parseElems f (jsonChars y ++ (elemsChars ys ++ ']' :: rest)) = some (y :: ys, rest) := by
          apply B
          · simp only [sizeElems] at hs ⊢
            omega
          · exact hr
        have hne : (',' : Char) ≠ ']' := by decide
        simp only [elemsChars, List.cons_append, List.append_assoc] at hy ⊢
        simp [if_neg hne, hy]
    · -- parseMember
      intro k w rest hs hr
      have hv : parseValue f (jsonChars w ++ rest) = some (w, rest) := by
        apply A
        · simp only [sizeMember] at hs
          omega
        · exact hr
      have hmem : memberChars (k, w) ++ rest = '"' :: (escapeString k ++ '"' :: ':' :: ' ' :: (jsonChars w ++ rest)) := by
        show ('"' :: escapeString k ++ ['"', ':', ' '] ++ jsonChars w) ++ rest = _
        simp
      rw [hmem, parseMember.eq_def]
      simp only [reduceIte]
      rw [parseStringBody_escape k (':' :: ' ' :: (jsonChars w ++ rest))]
      simp [hv]
    · -- parseMembers
      intro kv kvs rest hs hr
      obtain ⟨k, w⟩ := kv
      have hm : parseMember f (memberChars (k, w) ++ (membersChars kvs ++ rbrace :: rest)) = some ((k, w), membersChars kvs ++ rbrace :: rest) := by
        apply C
        · simp only [sizeMembers] at hs
          omega
        · exact noDigitHead_members kvs rest
      rw [parseMembers.eq_def]
      simp only [hm]
      cases kvs with
      | nil =>
        simp [membersChars]
      | cons kv2 kvs' =>
        have hy : parseMembers f (memberChars kv2 ++ (membersChars kvs' ++ rbrace :: rest)) = some (kv2 :: kvs', rest) := by
          apply D
          · simp only [sizeMembers] at hs ⊢
            omega
          · exact hr
        have hne : (',' : Char) ≠ rbrace := by decide
        simp only [membersChars, List.cons_append, List.append_assoc] at hy ⊢
        simp [if_neg hne, hy]

/-- `json.loads` inverts `json.dumps`. -/
theorem jsonLoads_jsonChars (v : Json) : jsonLoads (jsonChars v) = some v := by
  unfold jsonLoads
  have h := (parse_sound ((jsonChars v).length + 1)).1 v []
    (le_trans (sizeJ_le_length v) (by omega)) trivial
  rw [List.append_nil] at h
  rw [h]

/-! ## Claim protocol lemmas -/

theorem claim_job_none_of (now : Int) (st : Store)
    (h : ∀ j ∈ st.jobs, eligible now j = false) : claim_job now st = (none, st) := by
  unfold claim_job
  rw [List.filter_eq_nil_iff.mpr (fun a ha => by simp [h a ha]), List.argmin_nil]

theorem claim_job_of_argmin (now : Int) (st : Store) (j : Job)
    (h : (st.jobs.filter (eligible now)).argmin Job.id = some j) :
    claim_job now st =
      (some { job_id := j.id, partner_id := j.partner_id, products := jsonLoads j.payload,
              attempts := j.attempts, max_attempts := pyOr j.max_attempts 5 },
       { st with jobs := applyToJob j.id claimedRow st.jobs }) := by
  unfold claim_job
  rw [h]

theorem claim_job_some_inv (now : Int) (st : Store) (c : Claimed) (st' : Store)
    (h : claim_job now st = (some c, st')) :
    ∃ j, (st.jobs.filter (eligible now)).argmin Job.id = some j ∧
      c = { job_id := j.id, partner_id := j.partner_id, products := jsonLoads j.payload,
            attempts := j.attempts, max_attempts := pyOr j.max_attempts 5 } ∧
      st' = { st with jobs := applyToJob j.id claimedRow st.jobs } := by
  unfold claim_job at h
  cases harg : (st.jobs.filter (eligible now)).argmin Job.id with
  | none =>
    rw [harg] at h
    exact absurd h (by simp)
  | some j =>
    rw [harg] at h
    rw [Prod.mk.injEq] at h
    obtain ⟨h1, h2⟩ := h
    exact ⟨j, rfl, (Option.some_inj.mp h1).symm, h2.symm⟩

theorem argmin_eligible_mem {now : Int} {st : Store} {j : Job}
    (h : (st.jobs.filter (eligible now)).argmin Job.id = some j) :
    j ∈ st.jobs ∧ eligible now j = true := by
  have hmem := List.argmin_mem h
  exact ⟨(List.mem_filter.mp hmem).1, (List.mem_filter.mp hmem).2⟩

theorem argmin_eligible_min {now : Int} {st : Store} {j : Job}
    (h : (st.jobs.filter (eligible now)).argmin Job.id = some j) :
    ∀ k ∈ st.jobs, eligible now k = true → j.id ≤ k.id := by
  intro k hk hek
  exact List.le_of_mem_argmin (List.mem_filter.mpr ⟨hk, hek⟩) h

/-! ## Claim theorems -/

/-- C2: `claim()` selects the single eligible job with the lowest id among
jobs with `status='pending'` whose `next_run` is null or not in the
future, marks it `in_progress` with `attempts` incremented by exactly 1,
and returns its id, submitter id, the deserialized payload, the
pre-increment attempts value and `max_attempts` (5 when unset); with no
eligible job it returns nothing and leaves the store unchanged. -/
theorem C2_claim_contract (now : Int) (st : Store) :
    ((∀ j ∈ st.jobs, eligible now j = false) → claim_job now st = (none, st)) ∧
    (∀ c st', claim_job now st = (some c, st') →
      ∃ j ∈ st.jobs, eligible now j = true ∧
        (∀ k ∈ st.jobs, eligible now k = true → j.id ≤ k.id) ∧
        c.job_id = j.id ∧
        c.partner_id = j.partner_id ∧
        c.products = jsonLoads j.payload ∧
        c.attempts = j.attempts ∧
        c.max_attempts = pyOr j.max_attempts 5 ∧
        st'.jobs = applyToJob j.id claimedRow st.jobs ∧
        claimedRow j ∈ st'.jobs ∧
        (claimedRow j).status = "in_progress" ∧
        (claimedRow j).attempts = j.attempts + 1 ∧
        (∀ k ∈ st.jobs, k.id ≠ j.id → k ∈ st'.jobs) ∧
        st'.diagRows = st.diagRows ∧
        st'.catalog = st.catalog ∧
        st'.nextJobId = st.nextJobId ∧
        st'.nextDiagId = st.nextDiagId) := by
  constructor
  · exact claim_job_none_of now st
  · intro c st' h
    obtain ⟨j, harg, hc, hst⟩ := claim_job_some_inv now st c st' h
    obtain ⟨hj, hel⟩ := argmin_eligible_mem harg
    subst hc
    subst hst
    refine ⟨j, hj, hel, argmin_eligible_min harg, rfl, rfl, rfl, rfl, rfl, rfl, ?_, rfl, rfl, ?_, rfl, rfl, rfl, rfl⟩
    · have hfj : (fun k => if k.id = j.id then claimedRow k else k) j = claimedRow j := by simp
      have := List.mem_map_of_mem (fun k => if k.id = j.id then claimedRow k else k) hj
      rw [hfj] at this
      exact this
    · intro k hk hne
      have hfk : (fun r => if r.id = j.id then claimedRow r else r) k = k := by
        simp [hne]
      have := List.mem_map_of_mem (fun r => if r.id = j.id then claimedRow r else r) hk
      rw [hfk] at this
      exact this

/-- Witness for C2: at the sample store the claim succeeds and all the
listed facts hold of the selected job. -/
theorem C2_claim_contract_witness :
    ∃ j ∈ sampleStore.jobs, eligible 0 j = true ∧
      (∀ k ∈ sampleStore.jobs, eligible 0 k = true → j.id ≤ k.id) ∧
      ({ job_id := 1, partner_id := 7, products := some (.arr [.null]),
         attempts := 0, max_attempts := 5 } : Claimed).job_id = j.id ∧
      ({ job_id := 1, partner_id := 7, products := some (.arr [.null]),
         attempts := 0, max_attempts := 5 } : Claimed).partner_id = j.partner_id ∧
      ({ job_id := 1, partner_id := 7, products := some (.arr [.null]),
         attempts := 0, max_attempts := 5 } : Claimed).products = jsonLoads j.payload ∧
      ({ job_id := 1, partner_id := 7, products := some (.arr [.null]),
         attempts := 0, max_attempts := 5 } : Claimed).attempts = j.attempts ∧
      ({ job_id := 1, partner_id := 7, products := some (.arr [.null]),
         attempts := 0, max_attempts := 5 } : Claimed).max_attempts = pyOr j.max_attempts 5 ∧
      ({ sampleStore with jobs := applyToJob 1 claimedRow sampleStore.jobs } : Store).jobs
          = applyToJob j.id claimedRow sampleStore.jobs ∧
      claimedRow j ∈ ({ sampleStore with jobs := applyToJob 1 claimedRow sampleStore.jobs } : Store).jobs ∧
      (claimedRow j).status = "in_progress" ∧
      (claimedRow j).attempts = j.attempts + 1 ∧
      (∀ k ∈ sampleStore.jobs, k.id ≠ j.id →
        k ∈ ({ sampleStore with jobs := applyToJob 1 claimedRow sampleStore.jobs } : Store).jobs) ∧
      ({ sampleStore with jobs := applyToJob 1 claimedRow sampleStore.jobs } : Store).diagRows = sampleStore.diagRows ∧
      ({ sampleStore with jobs := applyToJob 1 claimedRow sampleStore.jobs } : Store).catalog = sampleStore.catalog ∧
      ({ sampleStore with jobs := applyToJob 1 claimedRow sampleStore.jobs } : Store).nextJobId = sampleStore.nextJobId ∧
      ({ sampleStore with jobs := applyToJob 1 claimedRow sampleStore.jobs } : Store).nextDiagId = sampleStore.nextDiagId :=
  (C2_claim_contract 0 sampleStore).2
    { job_id := 1, partner_id := 7, products := some (.arr [.null]), attempts := 0, max_attempts := 5 }
    { sampleStore with jobs := applyToJob 1 claimedRow sampleStore.jobs }
    (by rfl)

/-- C8: when no pending job is eligible, `process_next_job_once` returns
nothing, leaves every job row (and the rest of the store) unchanged, and
leaves all four metric counters unchanged. -/
theorem C8_procOnce_noop (validate : Json → ValidateOutcome)
    (upsert : List CatalogRow → Int → List Json → UpsertOutcome)
    (now : Int) (st : Store) (m : Metrics)
    (h : ∀ j ∈ st.jobs, eligible now j = false) :
    process_next_job_once validate upsert now st m = (.noJob, st, m) := by
  unfold process_next_job_once
  rw [claim_job_none_of now st h]

/-- Witness for C8 at the empty store. -/
theorem C8_procOnce_noop_witness :
    process_next_job_once acceptingValidate appendingUpsert 0 emptyStore emptyMetrics
      = (.noJob, emptyStore, emptyMetrics) :=
  C8_procOnce_noop acceptingValidate appendingUpsert 0 emptyStore emptyMetrics
    (by intro j hj; simp [emptyStore] at hj)

/-! ## Worker branch lemmas -/

theorem mem_applyToJob {jid : Nat} {f : Job → Job} {jobs : List Job} {j : Job}
    (hj : j ∈ applyToJob jid f jobs) :
    ∃ k ∈ jobs, j = if k.id = jid then f k else k := by
  unfold applyToJob at hj
  obtain ⟨k, hk, he⟩ := List.mem_map.mp hj
  exact ⟨k, hk, he.symm⟩

/-- C4: a claimed job with a non-empty payload on which the validator
reports a non-empty error list is marked `failed`, its diagnostics are
persisted as `accepted 0 / rejected (number of errors) / errors` (or an
offloaded pointer when the serialized form exceeds the threshold), its
`error` column is set to the serialized error list, the metrics are
untouched, and no catalog write occurs. -/
theorem C4_validation_rejects_batch (validate : Json → ValidateOutcome)
    (upsert : List CatalogRow → Int → List Json → UpsertOutcome)
    (u : ℚ) (now : Int) (st : Store) (m : Metrics)
    (c : Claimed) (st₁ : Store) (v : Json) (valid : List Json) (verrs : List (List Char))
    (hclaim : claim_job now st = (some c, st₁))
    (hprod : c.products = some v)
    (hfal : jsonFalsy v = false)
    (hval : validate v = .ok valid verrs)
    (hne : verrs ≠ []) :
    ∃ st₂, worker_iteration validate upsert u now st m = (.finished c.job_id, st₂, m) ∧
      st₂.catalog = st.catalog ∧
      (∀ j ∈ st₂.jobs, j.id = c.job_id →
        j.status = "failed" ∧
        j.error = some (jsonChars (.arr (verrs.map .str))) ∧
        j.diagnostics = some (if 2000 < (jsonChars (diagJson 0 verrs)).length
          then jsonChars (errorsLinkJson st₁.nextDiagId)
          else jsonChars (diagJson 0 verrs))) := by
  have hcat : st₁.catalog = st.catalog := by
    obtain ⟨j, _, _, hst⟩ := claim_job_some_inv now st c st₁ hclaim
    rw [hst]
  have hemp : verrs.isEmpty = false := List.isEmpty_eq_false.mpr hne
  unfold worker_iteration
  rw [hclaim]
  simp only [hprod, hfal, Bool.false_eq_true, if_false, hval, hemp]
  by_cases hlen : 2000 < (jsonChars (diagJson 0 verrs)).length
  · rw [if_pos hlen]
    refine ⟨_, rfl, hcat, ?_⟩
    intro j hj hid
    obtain ⟨k, _, he⟩ := mem_applyToJob hj
    by_cases hk : k.id = c.job_id
    · rw [if_pos hk] at he
      subst he
      exact ⟨rfl, rfl, by rw [if_pos hlen]⟩
    · rw [if_neg hk] at he
      subst he
      exact absurd hid hk
  · rw [if_neg hlen]
    refine ⟨_, rfl, hcat, ?_⟩
    intro j hj hid
    obtain ⟨k, _, he⟩ := mem_applyToJob hj
    by_cases hk : k.id = c.job_id
    · rw [if_pos hk] at he
      subst he
      exact ⟨rfl, rfl, by rw [if_neg hlen]⟩
    · rw [if_neg hk] at he
      subst he
      exact absurd hid hk

/-- Witness for C4 at the sample store with the rejecting validator. -/
theorem C4_validation_rejects_batch_witness :
    ∃ st₂, worker_iteration rejectingValidate appendingUpsert 1 0 sampleStore emptyMetrics
        = (.finished 1, st₂, emptyMetrics) ∧
      st₂.catalog = sampleStore.catalog ∧
      (∀ j ∈ st₂.jobs, j.id = 1 →
        j.status = "failed" ∧
        j.error = some (jsonChars (.arr ((["Item 0 error: price_cents must be >= 0".toList]).map .str))) ∧
        j.diagnostics = some (if 2000 < (jsonChars (diagJson 0 ["Item 0 error: price_cents must be >= 0".toList])).length
          then jsonChars (errorsLinkJson 1)
          else jsonChars (diagJson 0 ["Item 0 error: price_cents must be >= 0".toList]))) :=
  C4_validation_rejects_batch rejectingValidate appendingUpsert 1 0 sampleStore emptyMetrics
    { job_id := 1, partner_id := 7, products := some (.arr [.null]), attempts := 0, max_attempts := 5 }
    { sampleStore with jobs := applyToJob 1 claimedRow sampleStore.jobs }
    (.arr [.null]) [] ["Item 0 error: price_cents must be >= 0".toList]
    (by rfl) rfl rfl rfl (by simp)

theorem find?_fresh_append (rows : List DiagRow) (row : DiagRow) (i : Nat)
    (hi : row.id = i) (hfresh : ∀ d ∈ rows, d.id ≠ i) :
    (rows ++ [row]).find? (fun d => d.id = i) = some row := by
  rw [List.find?_append]
  have h1 : rows.find? (fun d => decide (d.id = i)) = none := by
    rw [List.find?_eq_none]
    intro d hd
    simp [hfresh d hd]
  rw [h1]
  simp [hi]

/-- C6: a processed job's diagnostics summary is stored inline on the job
row exactly when its serialized size is at most 2000; otherwise the full
summary goes to the diagnostics table, the job row stores the pointer
object referencing the new record id, and looking the record up by that id
returns the full original content.  Both processed branches (upsert
success and validation failure) follow the same rule. -/
theorem C6_diagnostics_offload (validate : Json → ValidateOutcome)
    (upsert : List CatalogRow → Int → List Json → UpsertOutcome)
    (u : ℚ) (now : Int) (st : Store) (m : Metrics)
    (c : Claimed) (st₁ : Store) (v : Json)
    (hclaim : claim_job now st = (some c, st₁))
    (hprod : c.products = some v)
    (hfal : jsonFalsy v = false)
    (hfresh : ∀ d ∈ st.diagRows, d.id ≠ st.nextDiagId) :
    (∀ valid verrs upserted uerrs cat',
      validate v = .ok valid verrs → verrs = [] →
      upsert st₁.catalog c.partner_id valid = .ok upserted uerrs cat' →
      ∃ st₂, worker_iteration validate upsert u now st m
          = (.finished c.job_id, st₂, incr m "processed") ∧
        (((jsonChars (diagJson upserted uerrs)).length ≤ 2000 →
          st₂.diagRows = st.diagRows ∧
          ∀ j ∈ st₂.jobs, j.id = c.job_id →
            j.diagnostics = some (jsonChars (diagJson upserted uerrs))) ∧
         (2000 < (jsonChars (diagJson upserted uerrs)).length →
          st₂.diagRows = st.diagRows
              ++ [DiagRow.mk st.nextDiagId c.job_id (jsonChars (diagJson upserted uerrs))] ∧
          (∀ j ∈ st₂.jobs, j.id = c.job_id →
            j.diagnostics = some (jsonChars (errorsLinkJson st.nextDiagId))) ∧
          lookupDiag st₂ st.nextDiagId = some (jsonChars (diagJson upserted uerrs))))) ∧
    (∀ valid verrs,
      validate v = .ok valid verrs → verrs ≠ [] →
      ∃ st₂, worker_iteration validate upsert u now st m = (.finished c.job_id, st₂, m) ∧
        (((jsonChars (diagJson 0 verrs)).length ≤ 2000 →
          st₂.diagRows = st.diagRows ∧
          ∀ j ∈ st₂.jobs, j.id = c.job_id →
            j.diagnostics = some (jsonChars (diagJson 0 verrs))) ∧
         (2000 < (jsonChars (diagJson 0 verrs)).length →
          st₂.diagRows = st.diagRows
              ++ [DiagRow.mk st.nextDiagId c.job_id (jsonChars (diagJson 0 verrs))] ∧
          (∀ j ∈ st₂.jobs, j.id = c.job_id →
            j.diagnostics = some (jsonChars (errorsLinkJson st.nextDiagId))) ∧
          lookupDiag st₂ st.nextDiagId = some (jsonChars (diagJson 0 verrs))))) := by
  obtain ⟨jj, _, _, hst⟩ := claim_job_some_inv now st c st₁ hclaim
  have hdr : st₁.diagRows = st.diagRows := by rw [hst]
  have hnd : st₁.nextDiagId = st.nextDiagId := by rw [hst]
  constructor
  · intro valid verrs upserted uerrs cat' hval hverrs hup
    have hemp : verrs.isEmpty = true := by simp [hverrs]
    unfold worker_iteration
    rw [hclaim]
    simp only [hprod, hfal, Bool.false_eq_true, if_false, hval, hemp, if_true, hup]
    by_cases hlen : 2000 < (jsonChars (diagJson upserted uerrs)).length
    · rw [if_pos hlen]
      refine ⟨_, rfl, ?_, ?_⟩
      · intro hle
        omega
      · intro _
        refine ⟨by rw [hdr, hnd], ?_, ?_⟩
        · intro j hj hid
          obtain ⟨k, _, he⟩ := mem_applyToJob hj
          by_cases hk : k.id = c.job_id
          · rw [if_pos hk] at he
            subst he
            simp [hnd]
          · rw [if_neg hk] at he
            subst he
            exact absurd hid hk
        · unfold lookupDiag
          simp only [hdr, hnd]
          rw [find?_fresh_append st.diagRows
            (DiagRow.mk st.nextDiagId c.job_id (jsonChars (diagJson upserted uerrs)))
            st.nextDiagId rfl hfresh]
          rfl
    · rw [if_neg hlen]
      refine ⟨_, rfl, ?_, ?_⟩
      · intro _
        refine ⟨hdr, ?_⟩
        intro j hj hid
        obtain ⟨k, _, he⟩ := mem_applyToJob hj
        by_cases hk : k.id = c.job_id
        · rw [if_pos hk] at he
          subst he
          exact rfl
        · rw [if_neg hk] at he
          subst he
          exact absurd hid hk
      · intro hgt
        omega
  · intro valid verrs hval hne
    have hemp : verrs.isEmpty = false := List.isEmpty_eq_false.mpr hne
    unfold worker_iteration
    rw [hclaim]
    simp only [hprod, hfal, Bool.false_eq_true, if_false, hval, hemp]
    by_cases hlen : 2000 < (jsonChars (diagJson 0 verrs)).length
    · rw [if_pos hlen]
      refine ⟨_, rfl, ?_, ?_⟩
      · intro hle
        omega
      · intro _
        refine ⟨by rw [hdr, hnd], ?_, ?_⟩
        · intro j hj hid
          obtain ⟨k, _, he⟩ := mem_applyToJob hj
          by_cases hk : k.id = c.job_id
          · rw [if_pos hk] at he
            subst he
            simp [hnd]
          · rw [if_neg hk] at he
            subst he
            exact absurd hid hk
        · unfold lookupDiag
          simp only [hdr, hnd]
          rw [find?_fresh_append st.diagRows
            (DiagRow.mk st.nextDiagId c.job_id (jsonChars (diagJson 0 verrs)))
            st.nextDiagId rfl hfresh]
          rfl
    · rw [if_neg hlen]
      refine ⟨_, rfl, ?_, ?_⟩
      · intro _
        refine ⟨hdr, ?_⟩
        intro j hj hid
        obtain ⟨k, _, he⟩ := mem_applyToJob hj
        by_cases hk : k.id = c.job_id
        · rw [if_pos hk] at he
          subst he
          exact rfl
        · rw [if_neg hk] at he
          subst he
          exact absurd hid hk
      · intro hgt
        omega

/-- Witness for C6: the all-valid branch at the sample store (small inline
diagnostics). -/
theorem C6_diagnostics_offload_witness :
    ∃ st₂, worker_iteration acceptingValidate appendingUpsert 1 0 sampleStore emptyMetrics
        = (.finished 1, st₂, incr emptyMetrics "processed") ∧
      (((jsonChars (diagJson 1 [])).length ≤ 2000 →
        st₂.diagRows = sampleStore.diagRows ∧
        ∀ j ∈ st₂.jobs, j.id = 1 → j.diagnostics = some (jsonChars (diagJson 1 []))) ∧
       (2000 < (jsonChars (diagJson 1 [])).length →
        st₂.diagRows = sampleStore.diagRows
            ++ [DiagRow.mk sampleStore.nextDiagId 1 (jsonChars (diagJson 1 []))] ∧
        (∀ j ∈ st₂.jobs, j.id = 1 →
          j.diagnostics = some (jsonChars (errorsLinkJson sampleStore.nextDiagId))) ∧
        lookupDiag st₂ sampleStore.nextDiagId = some (jsonChars (diagJson 1 [])))) :=
  (C6_diagnostics_offload acceptingValidate appendingUpsert 1 0 sampleStore emptyMetrics
    { job_id := 1, partner_id := 7, products := some (.arr [.null]), attempts := 0, max_attempts := 5 }
    { sampleStore with jobs := applyToJob 1 claimedRow sampleStore.jobs }
    (.arr [.null]) (by rfl) rfl rfl (by intro d hd; simp [sampleStore] at hd)).1
    [.null] [] 1 []
    (sampleStore.catalog ++ [({ name := "Widget".toList, price_cents := 500, stock := 3, sku := none } : CatalogRow)])
    rfl rfl rfl

/-- C3 counterexample: at the concrete failing run (pending job with
payload `[null]`, validator raising, `uniform` draw `u = 3/4`, claim time
`now = 0`, re-read `attempts = 1`) the worker stores
`next_run = now + 1`, but the claimed delay formula
`max(1, 2**attempts) * u` gives `3/2`, so the delay written by the code is
not the claimed product: the code truncates it with `int()`. -/
theorem C3_delay_counterexample :
    (worker_iteration raisingValidate appendingUpsert (3 / 4) 0 sampleStore emptyMetrics).2.1.jobs.map Job.next_run
        = [some 1] ∧
    retryDelay 1 (3 / 4) = 1 ∧
    specRetryDelay 1 (3 / 4) = 3 / 2 ∧
    ¬ ((retryDelay 1 (3 / 4) : ℚ) = specRetryDelay 1 (3 / 4)) := by
  have hrd : retryDelay 1 (3 / 4) = 1 := by
    unfold retryDelay
    norm_num
  have hsd : specRetryDelay 1 (3 / 4) = 3 / 2 := by
    unfold specRetryDelay
    norm_num
  refine ⟨?_, hrd, hsd, ?_⟩
  · have hw : worker_iteration raisingValidate appendingUpsert (3 / 4) 0 sampleStore emptyMetrics
        = (.finished 1,
           (workerOnException
             { job_id := 1, partner_id := 7, products := some (.arr [.null]), attempts := 0, max_attempts := 5 }
             ("boom".toList) (3 / 4) 0
             { sampleStore with jobs := applyToJob 1 claimedRow sampleStore.jobs } emptyMetrics).1,
           (workerOnException
             { job_id := 1, partner_id := 7, products := some (.arr [.null]), attempts := 0, max_attempts := 5 }
             ("boom".toList) (3 / 4) 0
             { sampleStore with jobs := applyToJob 1 claimedRow sampleStore.jobs } emptyMetrics).2) := rfl
    rw [hw]
    unfold workerOnException
    rw [show rereadAttempts { sampleStore with jobs := applyToJob 1 claimedRow sampleStore.jobs }
        { job_id := 1, partner_id := 7, products := some (.arr [.null]), attempts := 0, max_attempts := 5 } = 1 from rfl]
    rw [show rereadMax { sampleStore with jobs := applyToJob 1 claimedRow sampleStore.jobs }
        { job_id := 1, partner_id := 7, products := some (.arr [.null]), attempts := 0, max_attempts := 5 } = 5 from rfl]
    rw [if_pos (by omega)]
    rw [hrd]
    rfl
  · rw [hrd, hsd]
    norm_num

/-- C3 (amended): when processing a claimed job raises — the validator
throwing, or the upsert collaborator throwing — the worker re-reads the
row's current `attempts`/`max_attempts`; below the ceiling it sets the job
back to `pending` with `next_run = now + ⌊max(1, 2**attempts) * u⌋`
seconds (`u` drawn from `uniform(0.5, 1.5)`; the code truncates the
jittered product to whole seconds), persists the error and increments the
`retried` metric, otherwise it marks the job permanently `failed` with the
error; on both branches the `failed` metric is incremented (the preserved
double count). -/
theorem C3_exception_backoff (validate : Json → ValidateOutcome)
    (upsert : List CatalogRow → Int → List Json → UpsertOutcome)
    (u : ℚ) (now : Int) (st : Store) (m : Metrics)
    (c : Claimed) (st₁ : Store) (v : Json)
    (hclaim : claim_job now st = (some c, st₁))
    (hprod : c.products = some v)
    (hfal : jsonFalsy v = false) :
    (∀ msg, validate v = .raised msg →
      worker_iteration validate upsert u now st m
        = (.finished c.job_id, (workerOnException c msg u now st₁ m).1,
           (workerOnException c msg u now st₁ m).2)) ∧
    (∀ valid msg cat', validate v = .ok valid [] →
      upsert st₁.catalog c.partner_id valid = .raised msg cat' →
      worker_iteration validate upsert u now st m
        = (.finished c.job_id, (workerOnException c msg u now { st₁ with catalog := cat' } m).1,
           (workerOnException c msg u now { st₁ with catalog := cat' } m).2)) ∧
    (∀ msg stb,
      (rereadAttempts stb c < rereadMax stb c →
        workerOnException c msg u now stb m
          = ({ stb with jobs := applyToJob c.job_id (fun j => { j with status := "pending", next_run := some (now + retryDelay (rereadAttempts stb c) u), error := some msg }) stb.jobs },
             incr (incr m "retried") "failed")) ∧
      (¬ rereadAttempts stb c < rereadMax stb c →
        workerOnException c msg u now stb m
          = ({ stb with jobs := applyToJob c.job_id (fun j => { j with status := "failed", error := some msg }) stb.jobs },
             incr m "failed"))) := by
  refine ⟨?_, ?_, ?_⟩
  · intro msg hval
    unfold worker_iteration
    rw [hclaim]
    simp only [hprod, hfal, Bool.false_eq_true, if_false, hval]
  · intro valid msg cat' hval hup
    unfold worker_iteration
    rw [hclaim]
    simp only [hprod, hfal, Bool.false_eq_true, if_false, hval, List.isEmpty_nil, if_true, hup]
  · intro msg stb
    constructor
    · intro hlt
      unfold workerOnException
      rw [if_pos hlt]
    · intro hge
      unfold workerOnException
      rw [if_neg hge]

/-- Witness for C3 (amended): the validator-raise branch at the sample
store with `u = 3/4`. -/
theorem C3_exception_backoff_witness :
    worker_iteration raisingValidate appendingUpsert (3 / 4) 0 sampleStore emptyMetrics
      = (.finished 1,
         (workerOnException
           { job_id := 1, partner_id := 7, products := some (.arr [.null]), attempts := 0, max_attempts := 5 }
           ("boom".toList) (3 / 4) 0
           { sampleStore with jobs := applyToJob 1 claimedRow sampleStore.jobs } emptyMetrics).1,
         (workerOnException
           { job_id := 1, partner_id := 7, products := some (.arr [.null]), attempts := 0, max_attempts := 5 }
           ("boom".toList) (3 / 4) 0
           { sampleStore with jobs := applyToJob 1 claimedRow sampleStore.jobs } emptyMetrics).2) :=
  (C3_exception_backoff raisingValidate appendingUpsert (3 / 4) 0 sampleStore emptyMetrics
    { job_id := 1, partner_id := 7, products := some (.arr [.null]), attempts := 0, max_attempts := 5 }
    { sampleStore with jobs := applyToJob 1 claimedRow sampleStore.jobs }
    (.arr [.null]) (by rfl) rfl rfl).1 ("boom".toList) rfl

/-! ## Producer API theorem -/

/-- C5: `enqueue_feed_db` inserts one new `pending` row with `attempts=0`,
the serialized payload and the optional feed hash, returns the generated
id and bumps the `enqueued` counter exactly once; a "database is locked"
error is retried up to 5 attempts, sleeping
`0.05 * 2^(attempt-1)` seconds scaled by a multiplicative jitter inside
`[0.85, 1.15)`; any other error is re-raised immediately with no state
change; five straight locked attempts re-raise the lock error. -/
theorem C5_enqueue_contract (outcomes : Nat → InsertOutcome) (rand : Nat → ℚ)
    (pid : Int) (products : List Json) (fh : Option (List Char))
    (st : Store) (m : Metrics) :
    ((newJob st.nextJobId pid products fh).status = "pending" ∧
     (newJob st.nextJobId pid products fh).attempts = 0 ∧
     (newJob st.nextJobId pid products fh).payload = jsonChars (.arr products) ∧
     (newJob st.nextJobId pid products fh).feed_hash = fh ∧
     backoff_base = 1 / 20) ∧
    (∀ a : Nat, ∀ r : ℚ, 0 ≤ r → r < 1 →
      backoff_base * 2 ^ (a - 1) * (17 / 20) ≤ enqSleep a r ∧
      enqSleep a r < backoff_base * 2 ^ (a - 1) * (23 / 20)) ∧
    (∀ k, 1 ≤ k → k ≤ 5 →
      (∀ i, 1 ≤ i → i < k → outcomes i = .locked) → outcomes k = .ok →
      enqueue_feed_db outcomes rand pid products fh st m =
        { result := .ok st.nextJobId
          store := { st with
                     jobs := st.jobs ++ [newJob st.nextJobId pid products fh]
                     nextJobId := st.nextJobId + 1 }
          metrics := incr m "enqueued"
          sleeps := (List.range (k - 1)).map (fun i => enqSleep (i + 1) (rand (i + 1))) }) ∧
    (∀ k msg, 1 ≤ k → k ≤ 5 →
      (∀ i, 1 ≤ i → i < k → outcomes i = .locked) → outcomes k = .otherErr msg →
      enqueue_feed_db outcomes rand pid products fh st m =
        { result := .error (.otherErr msg), store := st, metrics := m
          sleeps := (List.range (k - 1)).map (fun i => enqSleep (i + 1) (rand (i + 1))) }) ∧
    ((∀ i, 1 ≤ i → i ≤ 5 → outcomes i = .locked) →
      enqueue_feed_db outcomes rand pid products fh st m =
        { result := .error .locked, store := st, metrics := m
          sleeps := (List.range 5).map (fun i => enqSleep (i + 1) (rand (i + 1))) }) := by
  refine ⟨⟨rfl, rfl, rfl, rfl, rfl⟩, ?_, ?_, ?_, ?_⟩
  · intro a r hr0 hr1
    have hb : (0 : ℚ) < backoff_base * 2 ^ (a - 1) := by
      unfold backoff_base
      positivity
    have hm1 : (17 / 20 : ℚ) ≤ 1 + (r - 1 / 2) * (3 / 10) := by linarith
    have hm2 : 1 + (r - 1 / 2) * (3 / 10) < (23 / 20 : ℚ) := by linarith
    unfold enqSleep
    constructor
    · nlinarith
    · nlinarith
  · intro k hk1 hk5 hlock hok
    interval_cases k
    · simp [enqueue_feed_db, enqueueLoop, hok]
    · have h1 : outcomes 1 = .locked := hlock 1 (by omega) (by omega)
      simp [enqueue_feed_db, enqueueLoop, h1, hok, List.range_succ]
    · have h1 : outcomes 1 = .locked := hlock 1 (by omega) (by omega)
      have h2 : outcomes 2 = .locked := hlock 2 (by omega) (by omega)
      simp [enqueue_feed_db, enqueueLoop, h1, h2, hok, List.range_succ]
    · have h1 : outcomes 1 = .locked := hlock 1 (by omega) (by omega)
      have h2 : outcomes 2 = .locked := hlock 2 (by omega) (by omega)
      have h3 : outcomes 3 = .locked := hlock 3 (by omega) (by omega)
      simp [enqueue_feed_db, enqueueLoop, h1, h2, h3, hok, List.range_succ]
    · have h1 : outcomes 1 = .locked := hlock 1 (by omega) (by omega)
      have h2 : outcomes 2 = .locked := hlock 2 (by omega) (by omega)
      have h3 : outcomes 3 = .locked := hlock 3 (by omega) (by omega)
      have h4 : outcomes 4 = .locked := hlock 4 (by omega) (by omega)
      simp [enqueue_feed_db, enqueueLoop, h1, h2, h3, h4, hok, List.range_succ]
  · intro k msg hk1 hk5 hlock herr
    interval_cases k
    · simp [enqueue_feed_db, enqueueLoop, herr]
    · have h1 : outcomes 1 = .locked := hlock 1 (by omega) (by omega)
      simp [enqueue_feed_db, enqueueLoop, h1, herr, List.range_succ]
    · have h1 : outcomes 1 = .locked := hlock 1 (by omega) (by omega)
      have h2 : outcomes 2 = .locked := hlock 2 (by omega) (by omega)
      simp [enqueue_feed_db, enqueueLoop, h1, h2, herr, List.range_succ]
    · have h1 : outcomes 1 = .locked := hlock 1 (by omega) (by omega)
      have h2 : outcomes 2 = .locked := hlock 2 (by omega) (by omega)
      have h3 : outcomes 3 = .locked := hlock 3 (by omega) (by omega)
      simp [enqueue_feed_db, enqueueLoop, h1, h2, h3, herr, List.range_succ]
    · have h1 : outcomes 1 = .locked := hlock 1 (by omega) (by omega)
      have h2 : outcomes 2 = .locked := hlock 2 (by omega) (by omega)
      have h3 : outcomes 3 = .locked := hlock 3 (by omega) (by omega)
      have h4 : outcomes 4 = .locked := hlock 4 (by omega) (by omega)
      simp [enqueue_feed_db, enqueueLoop, h1, h2, h3, h4, herr, List.range_succ]
  · intro hlock
    have h1 : outcomes 1 = .locked := hlock 1 (by omega) (by omega)
    have h2 : outcomes 2 = .locked := hlock 2 (by omega) (by omega)
    have h3 : outcomes 3 = .locked := hlock 3 (by omega) (by omega)
    have h4 : outcomes 4 = .locked := hlock 4 (by omega) (by omega)
    have h5 : outcomes 5 = .locked := hlock 5 (by omega) (by omega)
    simp [enqueue_feed_db, enqueueLoop, h1, h2, h3, h4, h5, List.range_succ]

/-- Witness for C5: the success-after-one-lock scenario at the sample
environment. -/
theorem C5_enqueue_contract_witness :
    enqueue_feed_db sampleOutcomes sampleRand 7 [.null] none emptyStore emptyMetrics =
      { result := .ok emptyStore.nextJobId
        store := { emptyStore with
                   jobs := emptyStore.jobs ++ [newJob emptyStore.nextJobId 7 [.null] none]
                   nextJobId := emptyStore.nextJobId + 1 }
        metrics := incr emptyMetrics "enqueued"
        sleeps := (List.range 1).map (fun i => enqSleep (i + 1) (sampleRand (i + 1))) } :=
  (C5_enqueue_contract sampleOutcomes sampleRand 7 [.null] none emptyStore emptyMetrics).2.2.1
    2 (by omega) (by omega)
    (by
      intro i hi1 hi2
      have : i = 1 := by omega
      subst this
      rfl)
    (by rfl)

/-! ## State machine lemmas -/

theorem jobEdge_refl (j : Job) : jobEdge j j := ⟨le_refl _, Or.inl rfl⟩

theorem jobEdge2_of_single {j j' : Job} (h : jobEdge j j') : jobEdge2 j j' :=
  ⟨j', h, jobEdge_refl j'⟩

theorem id_inj_of_nodup {jobs : List Job} (hnd : (jobs.map Job.id).Nodup)
    {a b : Job} (ha : a ∈ jobs) (hb : b ∈ jobs) (hid : a.id = b.id) : a = b :=
  List.inj_on_of_nodup_map hnd ha hb hid

theorem eligible_status {now : Int} {j : Job} (h : eligible now j = true) :
    j.status = "pending" := by
  unfold eligible at h
  simp only [Bool.and_eq_true, decide_eq_true_eq] at h
  exact h.1

theorem applyToJob_comp (jid : Nat) (f g : Job → Job) (jobs : List Job)
    (hg : ∀ k, (g k).id = k.id) :
    applyToJob jid f (applyToJob jid g jobs)
      = jobs.map (fun k => if k.id = jid then f (g k) else k) := by
  unfold applyToJob
  rw [List.map_map]
  apply List.map_congr_left
  intro k _
  by_cases hk : k.id = jid
  · simp [Function.comp, hk, hg k]
  · simp [Function.comp, hk]

theorem find?_applyToJob_unique {jobs : List Job} (hnd : (jobs.map Job.id).Nodup)
    {j0 : Job} (hj0 : j0 ∈ jobs) (f : Job → Job) (hf : ∀ k, (f k).id = k.id) :
    (applyToJob j0.id f jobs).find? (fun j => j.id = j0.id) = some (f j0) := by
  induction jobs with
  | nil => cases hj0
  | cons a l ih =>
    simp only [List.map_cons, List.nodup_cons] at hnd
    rcases List.mem_cons.mp hj0 with h | h
    · subst h
      unfold applyToJob
      rw [List.map_cons, if_pos rfl]
      rw [List.find?_cons_of_pos _ (by simp [hf])]
    · have hne : a.id ≠ j0.id := by
        intro he
        exact hnd.1 (he ▸ List.mem_map_of_mem Job.id h)
      unfold applyToJob
      rw [List.map_cons, if_neg hne]
      rw [List.find?_cons_of_neg _ (by simp [hne])]
      exact ih hnd.2 h

theorem claim_edge_j0 {now : Int} {st : Store} {j0 : Job}
    (harg : (st.jobs.filter (eligible now)).argmin Job.id = some j0) :
    jobEdge j0 (claimedRow j0) := by
  obtain ⟨_, hel⟩ := argmin_eligible_mem harg
  exact ⟨Nat.le_succ _, Or.inr (Or.inl ⟨eligible_status hel, rfl⟩)⟩

/-- Store whose jobs are the claim update followed by a per-row finalize
update: every row is two state-machine edges from its original. -/
theorem twoStep_edges {now : Int} {st : Store} {j0 : Job}
    (hnd : (st.jobs.map Job.id).Nodup)
    (hstat : ∀ j ∈ st.jobs, statusOk j.status)
    (harg : (st.jobs.filter (eligible now)).argmin Job.id = some j0)
    (upd : Job → Job)
    (hid : (upd (claimedRow j0)).id = j0.id)
    (hedge : jobEdge (claimedRow j0) (upd (claimedRow j0)))
    (hsok : statusOk (upd (claimedRow j0)).status) :
    ∀ j' ∈ applyToJob j0.id upd (applyToJob j0.id claimedRow st.jobs),
      statusOk j'.status ∧ ∃ j ∈ st.jobs, j.id = j'.id ∧ jobEdge2 j j' := by
  intro j' hj'
  rw [applyToJob_comp j0.id upd claimedRow st.jobs (fun k => rfl)] at hj'
  obtain ⟨k, hk, he⟩ := List.mem_map.mp hj'
  obtain ⟨hj0mem, _⟩ := argmin_eligible_mem harg
  by_cases hkid : k.id = j0.id
  · rw [if_pos hkid] at he
    have hkj0 : k = j0 := id_inj_of_nodup hnd hk hj0mem hkid
    rw [hkj0] at he
    subst he
    exact ⟨hsok, j0, hj0mem, hid.symm, claimedRow j0, claim_edge_j0 harg, hedge⟩
  · rw [if_neg hkid] at he
    subst he
    exact ⟨hstat k hk, k, hk, rfl, jobEdge2_of_single (jobEdge_refl k)⟩

/-- Store whose jobs carry only the claim update: every row is within two
edges of its original. -/
theorem oneStep_edges {now : Int} {st : Store} {j0 : Job}
    (hnd : (st.jobs.map Job.id).Nodup)
    (hstat : ∀ j ∈ st.jobs, statusOk j.status)
    (harg : (st.jobs.filter (eligible now)).argmin Job.id = some j0) :
    ∀ j' ∈ applyToJob j0.id claimedRow st.jobs,
      statusOk j'.status ∧ ∃ j ∈ st.jobs, j.id = j'.id ∧ jobEdge2 j j' := by
  intro j' hj'
  obtain ⟨k, hk, he⟩ := mem_applyToJob hj'
  obtain ⟨hj0mem, _⟩ := argmin_eligible_mem harg
  by_cases hkid : k.id = j0.id
  · rw [if_pos hkid] at he
    have hkj0 : k = j0 := id_inj_of_nodup hnd hk hj0mem hkid
    rw [hkj0] at he
    subst he
    exact ⟨Or.inr (Or.inl rfl), j0, hj0mem, rfl, jobEdge2_of_single (claim_edge_j0 harg)⟩
  · rw [if_neg hkid] at he
    subst he
    exact ⟨hstat j' hk, j', hk, rfl, jobEdge2_of_single (jobEdge_refl j')⟩

theorem unchanged_edges2 {st : Store} (hstat : ∀ j ∈ st.jobs, statusOk j.status) :
    ∀ j' ∈ st.jobs, statusOk j'.status ∧ ∃ j ∈ st.jobs, j.id = j'.id ∧ jobEdge2 j j' :=
  fun j' hj' => ⟨hstat j' hj', j', hj', rfl, jobEdge2_of_single (jobEdge_refl j')⟩

/-- Whatever the insert outcomes, the enqueue loop leaves the store alone
or appends exactly the one new pending row. -/
theorem enqueueLoop_store_cases (outcomes : Nat → InsertOutcome) (rand : Nat → ℚ)
    (pid : Int) (products : List Json) (fh : Option (List Char)) :
    ∀ remaining attempt (st : Store) (m : Metrics) (sleeps : List ℚ) (last : Option InsertOutcome),
      (enqueueLoop outcomes rand pid products fh remaining attempt st m sleeps last).store = st ∨
      (enqueueLoop outcomes rand pid products fh remaining attempt st m sleeps last).store
        = { st with jobs := st.jobs ++ [newJob st.nextJobId pid products fh], nextJobId := st.nextJobId + 1 } := by
  intro remaining
  induction remaining with
  | zero =>
    intro attempt st m sleeps last
    exact Or.inl rfl
  | succ n ih =>
    intro attempt st m sleeps last
    unfold enqueueLoop
    cases houtcome : outcomes attempt with
    | ok => exact Or.inr rfl
    | locked => exact ih (attempt + 1) st m (sleeps ++ [enqSleep attempt (rand attempt)]) (some .locked)
    | otherErr msg => exact Or.inl rfl

/-- The exception handler's store keeps every row within two edges of the
original store, given the handler runs on the post-claim job table. -/
theorem workerOnException_edges {now : Int} {st : Store} {j0 : Job}
    (hnd : (st.jobs.map Job.id).Nodup)
    (hstat : ∀ j ∈ st.jobs, statusOk j.status)
    (harg : (st.jobs.filter (eligible now)).argmin Job.id = some j0)
    (c : Claimed) (hcid : c.job_id = j0.id)
    (msg : List Char) (u : ℚ) (m : Metrics) (stb : Store)
    (hjobs : stb.jobs = applyToJob j0.id claimedRow st.jobs) :
    ∀ j' ∈ (workerOnException c msg u now stb m).1.jobs,
      statusOk j'.status ∧ ∃ j ∈ st.jobs, j.id = j'.id ∧ jobEdge2 j j' := by
  obtain ⟨hj0mem, _⟩ := argmin_eligible_mem harg
  have hfind : stb.jobs.find? (fun j => j.id = c.job_id) = some (claimedRow j0) := by
    rw [hjobs, hcid]
    exact find?_applyToJob_unique hnd hj0mem claimedRow (fun k => rfl)
  have hra : rereadAttempts stb c = j0.attempts + 1 := by
    unfold rereadAttempts
    rw [hfind]
    rfl
  have hrm : rereadMax stb c = pyOr j0.max_attempts 5 := by
    unfold rereadMax
    rw [hfind]
    rfl
  unfold workerOnException
  by_cases hcond : rereadAttempts stb c < rereadMax stb c
  · rw [if_pos hcond]
    intro j' hj'
    simp only [hcid, hjobs] at hj'
    refine twoStep_edges hnd hstat harg _ rfl ?_ (Or.inl rfl) j' hj'
    refine ⟨le_refl _, Or.inr (Or.inr (Or.inr ⟨rfl, rfl, ?_⟩))⟩
    rw [hra, hrm] at hcond
    exact hcond
  · rw [if_neg hcond]
    intro j' hj'
    simp only [hcid, hjobs] at hj'
    refine twoStep_edges hnd hstat harg _ rfl ?_ (Or.inr (Or.inr (Or.inr rfl))) j' hj'
    exact ⟨le_refl _, Or.inr (Or.inr (Or.inl ⟨rfl, Or.inr rfl⟩))⟩

/-! ## Synchronous processor theorems -/

/-- C7 counterexample: at a concrete eligible empty-payload job,
`process_next_job_once` returns a successful `done` result but leaves the
`processed` counter (and all metrics) unchanged, contradicting the claim
that every successful outcome increments the `processed` metric. -/
theorem C7_metrics_counterexample :
    (process_next_job_once acceptingValidate appendingUpsert 0 emptyPayloadStore emptyMetrics).1
        = .res { job_id := 1, status := "done", diagnostics := none, error := none } ∧
    (process_next_job_once acceptingValidate appendingUpsert 0 emptyPayloadStore emptyMetrics).2.2.processed
        = 0 ∧
    ¬ (0 = 0 + 1) := by
  refine ⟨rfl, rfl, by omega⟩

/-- C7 (amended): `process_next_job_once` performs the same per-job
algorithm as the worker loop's steps 1–4 — on every successful outcome
(empty payload or all-valid batch) it marks the job `done` and sets
`processed_at`, producing exactly the store the worker loop would — except
that it updates no metric counters on any path, and on an unexpected
exception it directly marks the job `failed` with the error, without
backoff or retry scheduling; it returns a structured result (job id, final
status, diagnostics or error), or nothing when no job was eligible. -/
theorem C7_sync_processor (validate : Json → ValidateOutcome)
    (upsert : List CatalogRow → Int → List Json → UpsertOutcome)
    (u : ℚ) (now : Int) (st : Store) (m : Metrics) :
    ((process_next_job_once validate upsert now st m).2.2 = m) ∧
    ((∀ j ∈ st.jobs, eligible now j = false) →
      process_next_job_once validate upsert now st m = (.noJob, st, m)) ∧
    (∀ c st₁ v, claim_job now st = (some c, st₁) → c.products = some v →
      (jsonFalsy v = true →
        ∃ st₂, process_next_job_once validate upsert now st m
            = (.res { job_id := c.job_id, status := "done", diagnostics := none, error := none }, st₂, m) ∧
          worker_iteration validate upsert u now st m = (.finished c.job_id, st₂, incr m "processed") ∧
          (∀ j ∈ st₂.jobs, j.id = c.job_id → j.status = "done" ∧ j.processed_at = some now)) ∧
      (jsonFalsy v = false →
        (∀ valid verrs, validate v = .ok valid verrs → verrs ≠ [] →
          ∃ st₂ r, process_next_job_once validate upsert now st m = (.res r, st₂, m) ∧
            worker_iteration validate upsert u now st m = (.finished c.job_id, st₂, m) ∧
            r.job_id = c.job_id ∧ r.status = "failed") ∧
        (∀ valid upserted uerrs cat', validate v = .ok valid [] →
          upsert st₁.catalog c.partner_id valid = .ok upserted uerrs cat' →
          ∃ st₂ r, process_next_job_once validate upsert now st m = (.res r, st₂, m) ∧
            worker_iteration validate upsert u now st m = (.finished c.job_id, st₂, incr m "processed") ∧
            r.job_id = c.job_id ∧ r.status = "done" ∧
            (∀ j ∈ st₂.jobs, j.id = c.job_id → j.status = "done" ∧ j.processed_at = some now)) ∧
        (∀ msg, validate v = .raised msg →
          process_next_job_once validate upsert now st m
            = (.res { job_id := c.job_id, status := "failed", diagnostics := none, error := some msg },
               { st₁ with jobs := applyToJob c.job_id (fun j => { j with status := "failed", error := some msg }) st₁.jobs },
               m)) ∧
        (∀ valid msg cat', validate v = .ok valid [] →
          upsert st₁.catalog c.partner_id valid = .raised msg cat' →
          process_next_job_once validate upsert now st m
            = (.res { job_id := c.job_id, status := "failed", diagnostics := none, error := some msg },
               { st₁ with
                 catalog := cat'
                 jobs := applyToJob c.job_id (fun j => { j with status := "failed", error := some msg }) st₁.jobs },
               m)))) := by
  refine ⟨?_, ?_, ?_⟩
  · -- no path of the synchronous processor touches the metrics
    unfold process_next_job_once
    rcases hcl : claim_job now st with ⟨o, st₁⟩
    cases o with
    | none => rfl
    | some c =>
      cases hp : c.products with
      | none => simp only [hp]
      | some v =>
        simp only [hp]
        by_cases hf : jsonFalsy v
        · simp only [hf, if_true]
        · simp only [hf, Bool.false_eq_true, if_false]
          cases hv : validate v with
          | raised msg => simp only [hv]
          | ok valid verrs =>
            simp only [hv]
            by_cases he : verrs.isEmpty
            · simp only [he, if_true]
              cases hu : upsert st₁.catalog c.partner_id valid with
              | raised msg cat' => simp only [hu]
              | ok upserted uerrs cat' =>
                simp only [hu]
                by_cases hl : 2000 < (jsonChars (diagJson upserted uerrs)).length
                · simp only [if_pos hl]
                · simp only [if_neg hl]
            · simp only [he, Bool.false_eq_true, if_false]
              by_cases hl : 2000 < (jsonChars (diagJson 0 verrs)).length
              · simp only [if_pos hl]
              · simp only [if_neg hl]
  · intro h
    unfold process_next_job_once
    rw [claim_job_none_of now st h]
  · intro c st₁ v hclaim hprod
    constructor
    · intro hfal
      refine ⟨{ st₁ with jobs := applyToJob c.job_id (fun j => { j with status := "done", processed_at := some now }) st₁.jobs }, ?_, ?_, ?_⟩
      · unfold process_next_job_once
        rw [hclaim]
        simp only [hprod, hfal, if_true]
      · unfold worker_iteration
        rw [hclaim]
        simp only [hprod, hfal, if_true]
      · intro j hj hid
        obtain ⟨k, _, he⟩ := mem_applyToJob hj
        by_cases hk : k.id = c.job_id
        · rw [if_pos hk] at he
          subst he
          exact ⟨rfl, rfl⟩
        · rw [if_neg hk] at he
          subst he
          exact absurd hid hk
    · intro hfal
      refine ⟨?_, ?_, ?_, ?_⟩
      · intro valid verrs hval hne
        have hemp : verrs.isEmpty = false := List.isEmpty_eq_false.mpr hne
        by_cases hl : 2000 < (jsonChars (diagJson 0 verrs)).length
        · refine ⟨{ st₁ with
                    jobs := applyToJob c.job_id (fun j => { j with status := "failed", error := some (jsonChars (.arr (verrs.map .str))), diagnostics := some (jsonChars (errorsLinkJson st₁.nextDiagId)) }) st₁.jobs
                    diagRows := st₁.diagRows ++ [DiagRow.mk st₁.nextDiagId c.job_id (jsonChars (diagJson 0 verrs))]
                    nextDiagId := st₁.nextDiagId + 1 },
                  { job_id := c.job_id, status := "failed", diagnostics := some (errorsLinkJson st₁.nextDiagId), error := none },
                  ?_, ?_, rfl, rfl⟩
          · unfold process_next_job_once
            rw [hclaim]
            simp only [hprod, hfal, Bool.false_eq_true, if_false, hval, hemp, if_pos hl]
          · unfold worker_iteration
            rw [hclaim]
            simp only [hprod, hfal, Bool.false_eq_true, if_false, hval, hemp, if_pos hl]
        · refine ⟨{ st₁ with
                    jobs := applyToJob c.job_id (fun j => { j with status := "failed", error := some (jsonChars (.arr (verrs.map .str))), diagnostics := some (jsonChars (diagJson 0 verrs)) }) st₁.jobs },
                  { job_id := c.job_id, status := "failed", diagnostics := some (diagJson 0 verrs), error := none },
                  ?_, ?_, rfl, rfl⟩
          · unfold process_next_job_once
            rw [hclaim]
            simp only [hprod, hfal, Bool.false_eq_true, if_false, hval, hemp, if_neg hl]
          · unfold worker_iteration
            rw [hclaim]
            simp only [hprod, hfal, Bool.false_eq_true, if_false, hval, hemp, if_neg hl]
      · intro valid upserted uerrs cat' hval hup
        have hemp : (([] : List (List Char))).isEmpty = true := rfl
        by_cases hl : 2000 < (jsonChars (diagJson upserted uerrs)).length
        · refine ⟨{ st₁ with
                    catalog := cat'
                    diagRows := st₁.diagRows ++ [DiagRow.mk st₁.nextDiagId c.job_id (jsonChars (diagJson upserted uerrs))]
                    nextDiagId := st₁.nextDiagId + 1
                    jobs := applyToJob c.job_id (fun j => { j with status := "done", processed_at := some now, diagnostics := some (jsonChars (errorsLinkJson st₁.nextDiagId)) }) st₁.jobs },
                  { job_id := c.job_id, status := "done", diagnostics := some (errorsLinkJson st₁.nextDiagId), error := none },
                  ?_, ?_, rfl, rfl, ?_⟩
          · unfold process_next_job_once
            rw [hclaim]
            simp only [hprod, hfal, Bool.false_eq_true, if_false, hval, hemp, if_true, hup, if_pos hl]
          · unfold worker_iteration
            rw [hclaim]
            simp only [hprod, hfal, Bool.false_eq_true, if_false, hval, hemp, if_true, hup, if_pos hl]
          · intro j hj hid
            obtain ⟨k, _, he⟩ := mem_applyToJob hj
            by_cases hk : k.id = c.job_id
            · rw [if_pos hk] at he
              subst he
              exact ⟨rfl, rfl⟩
            · rw [if_neg hk] at he
              subst he
              exact absurd hid hk
        · refine ⟨{ st₁ with
                    catalog := cat'
                    jobs := applyToJob c.job_id (fun j => { j with status := "done", processed_at := some now, diagnostics := some (jsonChars (diagJson upserted uerrs)) }) st₁.jobs },
                  { job_id := c.job_id, status := "done", diagnostics := some (diagJson upserted uerrs), error := none },
                  ?_, ?_, rfl, rfl, ?_⟩
          · unfold process_next_job_once
            rw [hclaim]
            simp only [hprod, hfal, Bool.false_eq_true, if_false, hval, hemp, if_true, hup, if_neg hl]
          · unfold worker_iteration
            rw [hclaim]
            simp only [hprod, hfal, Bool.false_eq_true, if_false, hval, hemp, if_true, hup, if_neg hl]
          · intro j hj hid
            obtain ⟨k, _, he⟩ := mem_applyToJob hj
            by_cases hk : k.id = c.job_id
            · rw [if_pos hk] at he
              subst he
              exact ⟨rfl, rfl⟩
            · rw [if_neg hk] at he
              subst he
              exact absurd hid hk
      · intro msg hval
        unfold process_next_job_once
        rw [hclaim]
        simp only [hprod, hfal, Bool.false_eq_true, if_false, hval]
      · intro valid msg cat' hval hup
        unfold process_next_job_once
        rw [hclaim]
        simp only [hprod, hfal, Bool.false_eq_true, if_false, hval, List.isEmpty_nil, if_true, hup]

/-- Witness for C7 (amended): the empty-payload success at the concrete
store — the job is marked done, the store agrees with the worker loop's,
and the metrics are returned unchanged. -/
theorem C7_sync_processor_witness :
    ∃ st₂, process_next_job_once acceptingValidate appendingUpsert 0 emptyPayloadStore emptyMetrics
        = (.res { job_id := 1, status := "done", diagnostics := none, error := none }, st₂, emptyMetrics) ∧
      worker_iteration acceptingValidate appendingUpsert 1 0 emptyPayloadStore emptyMetrics
        = (.finished 1, st₂, incr emptyMetrics "processed") ∧
      (∀ j ∈ st₂.jobs, j.id = 1 → j.status = "done" ∧ j.processed_at = some 0) :=
  ((C7_sync_processor acceptingValidate appendingUpsert 1 0 emptyPayloadStore emptyMetrics).2.2
    { job_id := 1, partner_id := 7, products := some (.arr []), attempts := 0, max_attempts := 5 }
    { emptyPayloadStore with jobs := applyToJob 1 claimedRow emptyPayloadStore.jobs }
    (.arr []) (by rfl) rfl).1 rfl

/-! ## Invariant theorem -/

/-- C9: every operation of the core — enqueue, claim, one worker-loop
iteration, one synchronous processing call — keeps each job's status
within the four legal values, never decreases a job's `attempts`, and only
moves a row along the state-machine edges
`pending → in_progress → (done | failed)` with the retry edge back to
`pending` taken only when `attempts < max_attempts`; enqueue only appends
a fresh `pending` row with `attempts = 0`. -/
theorem C9_state_machine (outcomes : Nat → InsertOutcome) (rand : Nat → ℚ)
    (pid : Int) (products : List Json) (fh : Option (List Char))
    (validate : Json → ValidateOutcome)
    (upsert : List CatalogRow → Int → List Json → UpsertOutcome)
    (u : ℚ) (now : Int) (st : Store) (m : Metrics)
    (hnd : (st.jobs.map Job.id).Nodup)
    (hstat : ∀ j ∈ st.jobs, statusOk j.status) :
    (∀ j' ∈ (enqueue_feed_db outcomes rand pid products fh st m).store.jobs,
      statusOk j'.status ∧ (j' ∈ st.jobs ∨ (j'.status = "pending" ∧ j'.attempts = 0))) ∧
    (∀ j' ∈ (claim_job now st).2.jobs,
      statusOk j'.status ∧ ∃ j ∈ st.jobs, j.id = j'.id ∧ jobEdge j j') ∧
    (∀ j' ∈ (worker_iteration validate upsert u now st m).2.1.jobs,
      statusOk j'.status ∧ ∃ j ∈ st.jobs, j.id = j'.id ∧ jobEdge2 j j') ∧
    (∀ j' ∈ (process_next_job_once validate upsert now st m).2.1.jobs,
      statusOk j'.status ∧ ∃ j ∈ st.jobs, j.id = j'.id ∧ jobEdge2 j j') := by
  refine ⟨?_, ?_, ?_, ?_⟩
  · -- enqueue
    intro j' hj'
    unfold enqueue_feed_db at hj'
    rcases enqueueLoop_store_cases outcomes rand pid products fh 5 1 st m [] none with h | h
    · rw [h] at hj'
      exact ⟨hstat j' hj', Or.inl hj'⟩
    · rw [h] at hj'
      rcases List.mem_append.mp hj' with h1 | h1
      · exact ⟨hstat j' h1, Or.inl h1⟩
      · simp only [List.mem_singleton] at h1
        subst h1
        exact ⟨Or.inl rfl, Or.inr ⟨rfl, rfl⟩⟩
  · -- claim
    rcases harg : (st.jobs.filter (eligible now)).argmin Job.id with _ | j0
    · have hcl : claim_job now st = (none, st) := by
        unfold claim_job
        rw [harg]
      rw [hcl]
      intro j' hj'
      exact ⟨hstat j' hj', j', hj', rfl, jobEdge_refl j'⟩
    · rw [claim_job_of_argmin now st j0 harg]
      intro j' hj'
      obtain ⟨k, hk, he⟩ := mem_applyToJob hj'
      obtain ⟨hj0mem, hel⟩ := argmin_eligible_mem harg
      by_cases hkid : k.id = j0.id
      · rw [if_pos hkid] at he
        have hkj0 : k = j0 := id_inj_of_nodup hnd hk hj0mem hkid
        rw [hkj0] at he
        subst he
        exact ⟨Or.inr (Or.inl rfl), j0, hj0mem, rfl, claim_edge_j0 harg⟩
      · rw [if_neg hkid] at he
        subst he
        exact ⟨hstat j' hk, j', hk, rfl, jobEdge_refl j'⟩
  · -- worker iteration
    rcases harg : (st.jobs.filter (eligible now)).argmin Job.id with _ | j0
    · have hcl : claim_job now st = (none, st) := by
        unfold claim_job
        rw [harg]
      unfold worker_iteration
      rw [hcl]
      exact unchanged_edges2 hstat
    · have hcl := claim_job_of_argmin now st j0 harg
      unfold worker_iteration
      rw [hcl]
      cases hp : jsonLoads j0.payload with
      | none =>
        simp only [hp]
        exact oneStep_edges hnd hstat harg
      | some v =>
        simp only [hp]
        by_cases hf : jsonFalsy v
        · simp only [hf, if_true]
          exact twoStep_edges hnd hstat harg
            (fun j => { j with status := "done", processed_at := some now }) rfl
            ⟨le_refl _, Or.inr (Or.inr (Or.inl ⟨rfl, Or.inl rfl⟩))⟩
            (Or.inr (Or.inr (Or.inl rfl)))
        · simp only [hf, Bool.false_eq_true, if_false]
          cases hv : validate v with
          | raised msg =>
            simp only [hv]
            exact workerOnException_edges hnd hstat harg _ rfl msg u m _ rfl
          | ok valid verrs =>
            simp only [hv]
            by_cases he : verrs.isEmpty
            · simp only [he, if_true]
              cases hu : upsert st.catalog j0.partner_id valid with
              | raised msg cat' =>
                simp only [hu]
                exact workerOnException_edges hnd hstat harg _ rfl msg u m _ rfl
              | ok upserted uerrs cat' =>
                simp only [hu]
                by_cases hl : 2000 < (jsonChars (diagJson upserted uerrs)).length
                · simp only [if_pos hl]
                  exact twoStep_edges hnd hstat harg
                    (fun j => { j with status := "done", processed_at := some now, diagnostics := some (jsonChars (errorsLinkJson st.nextDiagId)) }) rfl
                    ⟨le_refl _, Or.inr (Or.inr (Or.inl ⟨rfl, Or.inl rfl⟩))⟩
                    (Or.inr (Or.inr (Or.inl rfl)))
                · simp only [if_neg hl]
                  exact twoStep_edges hnd hstat harg
                    (fun j => { j with status := "done", processed_at := some now, diagnostics := some (jsonChars (diagJson upserted uerrs)) }) rfl
                    ⟨le_refl _, Or.inr (Or.inr (Or.inl ⟨rfl, Or.inl rfl⟩))⟩
                    (Or.inr (Or.inr (Or.inl rfl)))
            · simp only [he, Bool.false_eq_true, if_false]
              by_cases hl : 2000 < (jsonChars (diagJson 0 verrs)).length
              · simp only [if_pos hl]
                exact twoStep_edges hnd hstat harg
                  (fun j => { j with status := "failed", error := some (jsonChars (.arr (verrs.map .str))), diagnostics := some (jsonChars (errorsLinkJson st.nextDiagId)) }) rfl
                  ⟨le_refl _, Or.inr (Or.inr (Or.inl ⟨rfl, Or.inr rfl⟩))⟩
                  (Or.inr (Or.inr (Or.inr rfl)))
              · simp only [if_neg hl]
                exact twoStep_edges hnd hstat harg
                  (fun j => { j with status := "failed", error := some (jsonChars (.arr (verrs.map .str))), diagnostics := some (jsonChars (diagJson 0 verrs)) }) rfl
                  ⟨le_refl _, Or.inr (Or.inr (Or.inl ⟨rfl, Or.inr rfl⟩))⟩
                  (Or.inr (Or.inr (Or.inr rfl)))
  · -- synchronous processor
    rcases harg : (st.jobs.filter (eligible now)).argmin Job.id with _ | j0
    · have hcl : claim_job now st = (none, st) := by
        unfold claim_job
        rw [harg]
      unfold process_next_job_once
      rw [hcl]
      exact unchanged_edges2 hstat
    · have hcl := claim_job_of_argmin now st j0 harg
      unfold process_next_job_once
      rw [hcl]
      cases hp : jsonLoads j0.payload with
      | none =>
        simp only [hp]
        exact oneStep_edges hnd hstat harg
      | some v =>
        simp only [hp]
        by_cases hf : jsonFalsy v
        · simp only [hf, if_true]
          exact twoStep_edges hnd hstat harg
            (fun j => { j with status := "done", processed_at := some now }) rfl
            ⟨le_refl _, Or.inr (Or.inr (Or.inl ⟨rfl, Or.inl rfl⟩))⟩
            (Or.inr (Or.inr (Or.inl rfl)))
        · simp only [hf, Bool.false_eq_true, if_false]
          cases hv : validate v with
          | raised msg =>
            simp only [hv]
            exact twoStep_edges hnd hstat harg
              (fun j => { j with status := "failed", error := some msg }) rfl
              ⟨le_refl _, Or.inr (Or.inr (Or.inl ⟨rfl, Or.inr rfl⟩))⟩
              (Or.inr (Or.inr (Or.inr rfl)))
          | ok valid verrs =>
            simp only [hv]
            by_cases he : verrs.isEmpty
            · simp only [he, if_true]
              cases hu : upsert st.catalog j0.partner_id valid with
              | raised msg cat' =>
                simp only [hu]
                exact twoStep_edges hnd hstat harg
                  (fun j => { j with status := "failed", error := some msg }) rfl
                  ⟨le_refl _, Or.inr (Or.inr (Or.inl ⟨rfl, Or.inr rfl⟩))⟩
                  (Or.inr (Or.inr (Or.inr rfl)))
              | ok upserted uerrs cat' =>
                simp only [hu]
                by_cases hl : 2000 < (jsonChars (diagJson upserted uerrs)).length
                · simp only [if_pos hl]
                  exact twoStep_edges hnd hstat harg
                    (fun j => { j with status := "done", processed_at := some now, diagnostics := some (jsonChars (errorsLinkJson st.nextDiagId)) }) rfl
                    ⟨le_refl _, Or.inr (Or.inr (Or.inl ⟨rfl, Or.inl rfl⟩))⟩
                    (Or.inr (Or.inr (Or.inl rfl)))
                · simp only [if_neg hl]
                  exact twoStep_edges hnd hstat harg
                    (fun j => { j with status := "done", processed_at := some now, diagnostics := some (jsonChars (diagJson upserted uerrs)) }) rfl
                    ⟨le_refl _, Or.inr (Or.inr (Or.inl ⟨rfl, Or.inl rfl⟩))⟩
                    (Or.inr (Or.inr (Or.inl rfl)))
            · simp only [he, Bool.false_eq_true, if_false]
              by_cases hl : 2000 < (jsonChars (diagJson 0 verrs)).length
              · simp only [if_pos hl]
                exact twoStep_edges hnd hstat harg
                  (fun j => { j with status := "failed", error := some (jsonChars (.arr (verrs.map .str))), diagnostics := some (jsonChars (errorsLinkJson st.nextDiagId)) }) rfl
                  ⟨le_refl _, Or.inr (Or.inr (Or.inl ⟨rfl, Or.inr rfl⟩))⟩
                  (Or.inr (Or.inr (Or.inr rfl)))
              · simp only [if_neg hl]
                exact twoStep_edges hnd hstat harg
                  (fun j => { j with status := "failed", error := some (jsonChars (.arr (verrs.map .str))), diagnostics := some (jsonChars (diagJson 0 verrs)) }) rfl
                  ⟨le_refl _, Or.inr (Or.inr (Or.inl ⟨rfl, Or.inr rfl⟩))⟩
                  (Or.inr (Or.inr (Or.inr rfl)))

/-! ## Round-trip theorem -/

/-- C10: payloads survive the queue: serialization at insert is inverted
by deserialization at claim, so a claimed job whose row still carries the
enqueued payload yields back exactly the enqueued products list — no item
lost, reordered or altered. -/
theorem C10_payload_roundtrip (products : List Json) :
    jsonLoads (jsonChars (.arr products)) = some (.arr products) ∧
    (∀ jid pid fh, (newJob jid pid products fh).payload = jsonChars (.arr products)) ∧
    (∀ now st c st' j, (st.jobs.map Job.id).Nodup →
      claim_job now st = (some c, st') → j ∈ st.jobs → j.id = c.job_id →
      j.payload = jsonChars (.arr products) →
      c.products = some (.arr products)) := by
  refine ⟨jsonLoads_jsonChars _, fun _ _ _ => rfl, ?_⟩
  intro now st c st' j hnd hclaim hj hid hpay
  obtain ⟨j0, harg, hc, _⟩ := claim_job_some_inv now st c st' hclaim
  obtain ⟨hj0mem, _⟩ := argmin_eligible_mem harg
  have hjj0 : j = j0 := by
    apply id_inj_of_nodup hnd hj hj0mem
    rw [hid, hc]
  rw [hc]
  show jsonLoads j0.payload = some (.arr products)
  rw [← hjj0, hpay]
  exact jsonLoads_jsonChars _

/-- Witness for C10 at the sample store. -/
theorem C10_payload_roundtrip_witness :
    ({ job_id := 1, partner_id := 7, products := some (.arr [.null]), attempts := 0, max_attempts := 5 } : Claimed).products
      = some (.arr [.null]) :=
  (C10_payload_roundtrip [.null]).2.2 0 sampleStore
    { job_id := 1, partner_id := 7, products := some (.arr [.null]), attempts := 0, max_attempts := 5 }
    { sampleStore with jobs := applyToJob 1 claimedRow sampleStore.jobs }
    sampleJob (by decide) (by rfl) (by simp [sampleStore]) rfl rfl

/-! ## Sequential claim lemmas -/

theorem eligible_claimedRow (now : Int) (k : Job) : eligible now (claimedRow k) = false := by
  unfold eligible claimedRow
  simp

theorem applyToJob_map_id (jid : Nat) (f : Job → Job) (jobs : List Job)
    (hf : ∀ k, (f k).id = k.id) :
    (applyToJob jid f jobs).map Job.id = jobs.map Job.id := by
  unfold applyToJob
  rw [List.map_map]
  apply List.map_congr_left
  intro k _
  by_cases hk : k.id = jid <;> simp [Function.comp, hk, hf]

theorem filter_eligible_applyToJob (now : Int) (jid : Nat) (jobs : List Job) :
    (applyToJob jid claimedRow jobs).filter (eligible now)
      = (jobs.filter (eligible now)).filter (fun k => ! decide (k.id = jid)) := by
  induction jobs with
  | nil => rfl
  | cons a l ih =>
    unfold applyToJob at ih ⊢
    simp only [List.map_cons, List.filter_cons]
    by_cases ha : a.id = jid
    · rw [if_pos ha, eligible_claimedRow]
      by_cases he : eligible now a
      · simp [he, ha, ih]
      · simp [he, ha, ih]
    · rw [if_neg ha]
      by_cases he : eligible now a
      · simp [he, ha, ih]
      · simp [he, ha, ih]

/-- In a list of jobs with distinct ids, removing the rows that share
`j0`'s id is the same as removing the single element `j0`. -/
theorem perm_cons_filter_ne {E : List Job} (hnd : (E.map Job.id).Nodup)
    {j0 : Job} (hj0 : j0 ∈ E) :
    E.Perm (j0 :: E.filter (fun k => ! decide (k.id = j0.id))) := by
  induction E with
  | nil => cases hj0
  | cons a l ih =>
    simp only [List.map_cons, List.nodup_cons] at hnd
    by_cases haj : a.id = j0.id
    · have haq : j0 = a := by
        rcases List.mem_cons.mp hj0 with h | h
        · exact h
        · exact absurd (haj ▸ List.mem_map_of_mem Job.id h) hnd.1
      have hl : l.filter (fun k => ! decide (k.id = j0.id)) = l := by
        apply List.filter_eq_self.mpr
        intro k hk
        simp only [Bool.not_eq_true', decide_eq_false_iff_not]
        intro hke
        apply hnd.1
        rw [← haq, ← hke]
        exact List.mem_map_of_mem Job.id hk
      rw [← haq, List.filter_cons]
      have hcond : (! decide (j0.id = j0.id)) = false := by simp
      rw [hcond]
      simp only [Bool.false_eq_true, if_false, hl]
      exact List.Perm.refl _
    · have hj0l : j0 ∈ l := by
        rcases List.mem_cons.mp hj0 with h | h
        · exact absurd (by rw [h] : a.id = j0.id) haj
        · exact h
      have hperm := ih hnd.2 hj0l
      rw [List.filter_cons]
      have hcond : (! decide (a.id = j0.id)) = true := by simp [haj]
      rw [hcond]
      simp only [if_true]
      exact List.Perm.trans (hperm.cons a) (List.Perm.swap j0 a _)

/-! ## Exclusive-claim theorem -/

/-- C1: `BEGIN IMMEDIATE` serializes claim transactions, so a set of `N`
concurrent `claim()` calls executes as `N` back-to-back claims; against
`M` eligible pending jobs with `N ≥ M`, exactly `M` of them succeed, the
remaining `N - M` return nothing, and the successful calls claim exactly
the `M` distinct eligible jobs, each claimed by exactly one caller. -/
theorem C1_claims_exclusive (now : Int) :
    ∀ (N : Nat) (st : Store),
      (st.jobs.map Job.id).Nodup →
      (st.jobs.filter (eligible now)).length ≤ N →
      ((claimSeq now N st).1.countP (fun o => o.isSome)
          = (st.jobs.filter (eligible now)).length ∧
       (claimSeq now N st).1.countP (fun o => o.isNone)
          = N - (st.jobs.filter (eligible now)).length ∧
       ((claimSeq now N st).1.filterMap (fun o => o.map Claimed.job_id)).Perm
          ((st.jobs.filter (eligible now)).map Job.id) ∧
       ((st.jobs.filter (eligible now)).map Job.id).Nodup) := by
  intro N
  induction N with
  | zero =>
    intro st hnd hlen
    have hnil : st.jobs.filter (eligible now) = [] :=
      List.length_eq_zero.mp (Nat.le_zero.mp hlen)
    rw [hnil]
    exact ⟨rfl, rfl, List.Perm.refl _, List.nodup_nil⟩
  | succ n ih =>
    intro st hnd hlen
    have hndE : ((st.jobs.filter (eligible now)).map Job.id).Nodup :=
      List.Nodup.sublist (List.Sublist.map Job.id (List.filter_sublist _)) hnd
    rcases harg : (st.jobs.filter (eligible now)).argmin Job.id with _ | j0
    · have hnil : st.jobs.filter (eligible now) = [] := List.argmin_eq_none.mp harg
      have hcl : claim_job now st = (none, st) := by
        unfold claim_job
        rw [harg]
      obtain ⟨h1, h2, h3, _⟩ := ih st hnd (by rw [hnil]; simp)
      simp only [claimSeq, hcl]
      rw [hnil] at h1 h2 h3 ⊢
      simp only [List.length_nil] at h1 h2 ⊢
      refine ⟨?_, ?_, ?_, List.nodup_nil⟩
      · rw [List.countP_cons_of_neg _ _ (by simp)]
        exact h1
      · rw [List.countP_cons_of_pos _ _ (by simp)]
        omega
      · simpa using h3
    · have hcl := claim_job_of_argmin now st j0 harg
      obtain ⟨hj0mem, hel⟩ := argmin_eligible_mem harg
      have hj0E : j0 ∈ st.jobs.filter (eligible now) := List.mem_filter.mpr ⟨hj0mem, hel⟩
      have hperm := perm_cons_filter_ne hndE hj0E
      have hlenE : 1 ≤ (st.jobs.filter (eligible now)).length :=
        List.length_pos.mpr (by intro h; rw [h] at hj0E; cases hj0E)
      have hnd' : ((applyToJob j0.id claimedRow st.jobs).map Job.id).Nodup := by
        rw [applyToJob_map_id j0.id claimedRow st.jobs (fun k => rfl)]
        exact hnd
      have hfilter' : (applyToJob j0.id claimedRow st.jobs).filter (eligible now)
          = (st.jobs.filter (eligible now)).filter (fun k => ! decide (k.id = j0.id)) :=
        filter_eligible_applyToJob now j0.id st.jobs
      have hlen' : ((applyToJob j0.id claimedRow st.jobs).filter (eligible now)).length
          = (st.jobs.filter (eligible now)).length - 1 := by
        rw [hfilter']
        have := hperm.length_eq
        simp only [List.length_cons] at this
        omega
      obtain ⟨h1, h2, h3, _⟩ :=
        ih { st with jobs := applyToJob j0.id claimedRow st.jobs } hnd' (by
          rw [hlen']
          omega)
      simp only [claimSeq, hcl]
      refine ⟨?_, ?_, ?_, hndE⟩
      · rw [List.countP_cons_of_pos _ _ (by simp)]
        rw [h1, hlen']
        omega
      · rw [List.countP_cons_of_neg _ _ (by simp)]
        rw [h2, hlen']
        omega
      · simp only [List.filterMap_cons, Option.map_some]
        rw [hfilter'] at h3
        have hmap := hperm.map Job.id
        simp only [List.map_cons] at hmap
        exact (h3.cons j0.id).trans hmap.symm

/-- Witness for C1: two claim calls against the one eligible sample job —
one succeeds, one returns nothing, and the claimed ids are exactly the
eligible ids. -/
theorem C1_claims_exclusive_witness :
    (claimSeq 0 2 sampleStore).1.countP (fun o => o.isSome)
        = (sampleStore.jobs.filter (eligible 0)).length ∧
    (claimSeq 0 2 sampleStore).1.countP (fun o => o.isNone)
        = 2 - (sampleStore.jobs.filter (eligible 0)).length ∧
    ((claimSeq 0 2 sampleStore).1.filterMap (fun o => o.map Claimed.job_id)).Perm
        ((sampleStore.jobs.filter (eligible 0)).map Job.id) ∧
    ((sampleStore.jobs.filter (eligible 0)).map Job.id).Nodup :=
  C1_claims_exclusive 0 2 sampleStore (by decide) (by decide)

/-- Witness for C9: the claim conjunct at the sample store, instantiated
at the freshly claimed row. -/
theorem C9_state_machine_witness :
    statusOk (claimedRow sampleJob).status ∧
    ∃ j ∈ sampleStore.jobs, j.id = (claimedRow sampleJob).id ∧ jobEdge j (claimedRow sampleJob) :=
  (C9_state_machine sampleOutcomes sampleRand 7 [.null] none acceptingValidate
    appendingUpsert 1 0 sampleStore emptyMetrics
    (by decide)
    (by
      intro j hj
      simp only [sampleStore, List.mem_singleton] at hj
      subst hj
      exact Or.inl rfl)).2.1 (claimedRow sampleJob) (by simp [claim_job, sampleStore, sampleJob, eligible, applyToJob, claimedRow])

end IngestQueue
